import Mathlib

/-!
Shallow embedding of the eventLog repository (Go): the line-level event
codec (`ParseEvent` / `Event.String` from models.go) and the ingestion /
query engine (`EventStore.Record` / `EventStore.Query`).  Strings are
modelled as lists of characters; Go `int64` is modelled as `Int` with
explicit 64-bit range checks where the code performs them; `time.Time`
values are modelled by their RFC3339 components plus a zone offset in
minutes, which is exactly the information `time.Parse(time.RFC3339, ...)`
produces.  The SQLite collaborator is modelled as a list of rows with
`ORDER BY` on the timestamp text realised as a sort by bytewise string
comparison, matching SQLite's BINARY collation on TEXT columns.
-/

namespace EventLog

/-- Strings are modelled as lists of characters (Go strings are byte
sequences; every character relevant to the codec is ASCII). -/
abbrev Str := List Char

/-- Characters of the field separator `" | "` used by `strings.Split`
and by `fmt.Sprintf("%s | %d | %s | %s", ...)`. -/
def sepChars : Str := [' ', '|', ' ']

/-- Helper for `splitSep`: prepend a character to the first field of a
split result. -/
def consHead (c : Char) : List Str → List Str
  | [] => [[c]]
  | f :: fs => (c :: f) :: fs

/-- Model of Go `strings.Split(line, " | ")`: cut the string at every
non-overlapping, leftmost-first occurrence of the three-character
separator. -/
def splitSep : Str → List Str
  | [] => [[]]
  | ' ' :: '|' :: ' ' :: rest => [] :: splitSep rest
  | c :: rest => consHead c (splitSep rest)

/-- Model of rebuilding a line from fields, matching the
`%s | %d | %s | %s` format string. -/
def joinSep : List Str → Str
  | [] => []
  | [f] => f
  | f :: fs => f ++ sepChars ++ joinSep fs

/-- Whether the separator `" | "` occurs starting at the head of
`c :: rest`. -/
def isSepStart (c : Char) (rest : Str) : Bool :=
  c == ' ' && (match rest with
    | c2 :: c3 :: _ => c2 == '|' && c3 == ' '
    | _ => false)

/-- Whether the string contains an occurrence of the separator `" | "`. -/
def containsSep : Str → Bool
  | [] => false
  | c :: rest => isSepStart c rest || containsSep rest

/-- Whether the string ends with the two characters `" |"` (such a field
would merge with a following separator when a line is rebuilt). -/
def endsSpacePipe (s : Str) : Bool :=
  match s.reverse with
  | c :: c2 :: _ => c == '|' && c2 == ' '
  | _ => false

/-- ASCII decimal digit character for a value 0..9. -/
def decDigit (d : Nat) : Char := Char.ofNat (48 + d)

/-- ASCII digit test, as used when scanning decimal numbers. -/
def isDigitC (c : Char) : Bool := 48 ≤ c.toNat && c.toNat ≤ 57

/-- Numeric value of an ASCII digit character. -/
def digitVal (c : Char) : Nat := c.toNat - 48

/-- Two-digit zero-padded decimal rendering (Go `Format` layout `01`). -/
def d2 (n : Nat) : Str := [decDigit (n / 10), decDigit (n % 10)]

/-- Four-digit zero-padded decimal rendering (Go `Format` layout `2006`). -/
def d4 (n : Nat) : Str :=
  [decDigit (n / 1000), decDigit (n / 100 % 10), decDigit (n / 10 % 10), decDigit (n % 10)]

/-- Fuel-driven helper for `natToDec`; the fuel bounds the number of
digits and is always sufficient at the call site. -/
def natToDecAux : Nat → Nat → Str
  | 0, _ => []
  | fuel + 1, n =>
    if n < 10 then [decDigit n] else natToDecAux fuel (n / 10) ++ [decDigit (n % 10)]

/-- Minimal decimal rendering of a natural number (Go `%d` for the
non-negative case). -/
def natToDec (n : Nat) : Str := natToDecAux (n + 1) n

/-- Value of a digit string, most significant digit first. -/
def decToNat (s : Str) : Nat := s.foldl (fun a c => a * 10 + digitVal c) 0

/-- ASCII whitespace test modelling Go `unicode.IsSpace` on the ASCII
range (space, tab, newline, vertical tab, form feed, carriage return). -/
def isSpaceC (c : Char) : Bool := c.toNat == 32 || (9 ≤ c.toNat && c.toNat ≤ 13)

/-- Model of Go `strings.TrimSpace`. -/
def trim (s : Str) : Str := ((s.dropWhile isSpaceC).reverse.dropWhile isSpaceC).reverse

/-- Go `strconv.FormatInt(v, 10)` / `%d` rendering of an integer. -/
def formatInt (v : Int) : Str :=
  if v < 0 then '-' :: natToDec v.natAbs else natToDec v.toNat

/-- Digit-string payload of `strconv.ParseInt`: a non-empty run of ASCII
digits, mapped to its value. -/
def parseIntNat (s : Str) : Option Nat :=
  match s with
  | [] => none
  | _ :: _ => if s.all isDigitC then some (decToNat s) else none

/-- Largest Go `int64` value. -/
def int64Max : Int := 2 ^ 63 - 1

/-- Model of Go `strconv.ParseInt(s, 10, 64)`: optional sign, one or
more decimal digits, 64-bit range check. -/
def parseInt (s : Str) : Option Int :=
  match s with
  | [] => none
  | c :: rest =>
    if c = '+' then
      (parseIntNat rest).bind fun n => if (n : Int) ≤ int64Max then some (n : Int) else none
    else if c = '-' then
      (parseIntNat rest).bind fun n => if (n : Int) ≤ 2 ^ 63 then some (-(n : Int)) else none
    else
      (parseIntNat (c :: rest)).bind fun n => if (n : Int) ≤ int64Max then some (n : Int) else none

/-- Model of Go `time.Time` restricted to what `time.Parse(time.RFC3339,
...)` can produce: calendar components, sub-second nanoseconds, and a
fixed zone offset in minutes east of UTC. -/
structure GoTime where
  year : Nat
  month : Nat
  day : Nat
  hour : Nat
  minute : Nat
  second : Nat
  nano : Nat
  ofs : Int
deriving DecidableEq

/-- Leap-year rule of the proleptic Gregorian calendar used by Go's
time package. -/
def isLeapYear (y : Nat) : Bool := (y % 4 == 0 && y % 100 != 0) || y % 400 == 0

/-- Number of days in a month, as validated by Go's RFC3339 parser. -/
def daysInMonth (y m : Nat) : Nat :=
  if m = 2 then (if isLeapYear y then 29 else 28)
  else if m = 4 ∨ m = 6 ∨ m = 9 ∨ m = 11 then 30 else 31

/-- Component ranges guaranteed by `time.Parse(time.RFC3339, ...)`. -/
def GoTime.Valid (t : GoTime) : Prop :=
  t.year ≤ 9999 ∧ 1 ≤ t.month ∧ t.month ≤ 12 ∧ 1 ≤ t.day ∧
  t.day ≤ daysInMonth t.year t.month ∧ t.hour ≤ 23 ∧ t.minute ≤ 59 ∧
  t.second ≤ 59 ∧ t.nano < 1000000000 ∧ t.ofs.natAbs ≤ 1439

instance (t : GoTime) : Decidable t.Valid := by
  unfold GoTime.Valid
  infer_instance

/-- Days of the proleptic Gregorian calendar strictly before January 1
of the given year, counted from January 1 of year 1. -/
def daysBeforeYear (y : Nat) : Nat :=
  (y - 1) * 365 + (y - 1) / 4 - (y - 1) / 100 + (y - 1) / 400

/-- Days before the first of the given month within one year. -/
def daysBeforeMonth (y m : Nat) : Nat :=
  (List.range (m - 1)).foldl (fun a k => a + daysInMonth y (k + 1)) 0

/-- Absolute instant of a time value, in seconds relative to the Go zero
time (January 1, year 1, 00:00:00 UTC).  This is the quantity Go's
`Time.After` / `Time.IsZero` compare. -/
def instantSec (t : GoTime) : Int :=
  ((daysBeforeYear t.year + daysBeforeMonth t.year t.month + (t.day - 1) : Nat) : Int) * 86400
    + t.hour * 3600 + t.minute * 60 + t.second - t.ofs * 60

/-- Model of Go `Time.IsZero`: the instant equals the zero time. -/
def GoTime.IsZero (t : GoTime) : Bool :=
  instantSec t == 0 && t.nano == 0

/-- Model of Go `Time.After`: strict comparison of instants. -/
def GoTime.After (a b : GoTime) : Bool :=
  decide (instantSec b < instantSec a) ||
    (instantSec a == instantSec b && decide (b.nano < a.nano))

/-- The Go zero time value (January 1, year 1, 00:00:00 UTC). -/
def zeroTime : GoTime := ⟨1, 1, 1, 0, 0, 0, 0, 0⟩

/-- Parse exactly two ASCII digits, returning their value and the rest. -/
def parse2 : Str → Option (Nat × Str)
  | c1 :: c2 :: rest =>
    if isDigitC c1 && isDigitC c2 then some (digitVal c1 * 10 + digitVal c2, rest) else none
  | _ => none

/-- Parse exactly four ASCII digits, returning their value and the rest. -/
def parse4 : Str → Option (Nat × Str)
  | c1 :: c2 :: c3 :: c4 :: rest =>
    if isDigitC c1 && isDigitC c2 && isDigitC c3 && isDigitC c4 then
      some (((digitVal c1 * 10 + digitVal c2) * 10 + digitVal c3) * 10 + digitVal c4, rest)
    else none
  | _ => none

/-- Require one specific character at the head of the input. -/
def expectCh (ch : Char) : Str → Option Str
  | c :: rest => if c = ch then some rest else none
  | [] => none

/-- Nanoseconds encoded by a fractional-second digit string (at most the
first nine digits are significant). -/
def nanoOfFrac (ds : Str) : Nat :=
  decToNat (ds.take 9) * 10 ^ (9 - min 9 ds.length)

/-- Optional fractional seconds: a dot followed by one or more digits,
accepted by Go's RFC3339 parser even though `Format` never emits it. -/
def parseFracOpt (s : Str) : Option (Nat × Str) :=
  match s with
  | c :: rest =>
    if c = '.' then
      if rest.takeWhile isDigitC = [] then none
      else some (nanoOfFrac (rest.takeWhile isDigitC), rest.dropWhile isDigitC)
    else some (0, s)
  | [] => some (0, s)

/-- Numeric zone offset `hh:mm` with the given sign, checked to at most
23 hours 59 minutes as in Go's RFC3339 parser. -/
def parseOffNum (sign : Int) (s : Str) : Option (Int × Str) :=
  (parse2 s).bind fun p1 =>
  (expectCh ':' p1.2).bind fun s2 =>
  (parse2 s2).bind fun p2 =>
  if p1.1 ≤ 23 ∧ p2.1 ≤ 59 then some (sign * ((p1.1 : Int) * 60 + (p2.1 : Int)), p2.2) else none

/-- Zone offset of an RFC3339 timestamp: `Z` or `±hh:mm`. -/
def parseOffset (s : Str) : Option (Int × Str) :=
  match s with
  | c :: rest =>
    if c = 'Z' then some (0, rest)
    else if c = '+' then parseOffNum 1 rest
    else if c = '-' then parseOffNum (-1) rest
    else none
  | [] => none

/-- Model of Go `time.Parse(time.RFC3339, s)`: strict
`yyyy-mm-ddThh:mm:ss` with optional fractional seconds and a `Z` or
`±hh:mm` offset, with all component ranges validated. -/
def parseRFC3339 (s : Str) : Option GoTime :=
  (parse4 s).bind fun py =>
  (expectCh '-' py.2).bind fun s1 =>
  (parse2 s1).bind fun pmo =>
  (expectCh '-' pmo.2).bind fun s2 =>
  (parse2 s2).bind fun pd =>
  (expectCh 'T' pd.2).bind fun s3 =>
  (parse2 s3).bind fun ph =>
  (expectCh ':' ph.2).bind fun s4 =>
  (parse2 s4).bind fun pmi =>
  (expectCh ':' pmi.2).bind fun s5 =>
  (parse2 s5).bind fun ps =>
  (parseFracOpt ps.2).bind fun pf =>
  (parseOffset pf.2).bind fun po =>
  if po.2 = [] ∧ 1 ≤ pmo.1 ∧ pmo.1 ≤ 12 ∧ 1 ≤ pd.1 ∧ pd.1 ≤ daysInMonth py.1 pmo.1 ∧
      ph.1 ≤ 23 ∧ pmi.1 ≤ 59 ∧ ps.1 ≤ 59 then
    some ⟨py.1, pmo.1, pd.1, ph.1, pmi.1, ps.1, pf.1, po.1⟩
  else none

/-- Offset part of Go `Format(time.RFC3339)` (`Z07:00` layout): `Z` for
UTC, otherwise a sign and `hh:mm`. -/
def formatOffset (ofs : Int) : Str :=
  if ofs = 0 then ['Z']
  else (if 0 < ofs then '+' else '-') :: (d2 (ofs.natAbs / 60) ++ ':' :: d2 (ofs.natAbs % 60))

/-- Model of Go `Time.Format(time.RFC3339)`: second precision, no
fractional part, offset as `Z` or `±hh:mm`. -/
def formatRFC3339 (t : GoTime) : Str :=
  d4 t.year ++ '-' :: (d2 t.month ++ '-' :: (d2 t.day ++ 'T' ::
    (d2 t.hour ++ ':' :: (d2 t.minute ++ ':' :: (d2 t.second ++ formatOffset t.ofs)))))

/-- Opening brace character. -/
def lbraceC : Char := Char.ofNat 123

/-- Closing brace character. -/
def rbraceC : Char := Char.ofNat 125

/-- JSON insignificant whitespace. -/
def jsonWsC (c : Char) : Bool := c = ' ' || c = '\t' || c = '\n' || c = '\r'

/-- Skip JSON insignificant whitespace. -/
def skipWs (s : Str) : Str := s.dropWhile jsonWsC

/-- Single-character JSON string escapes. -/
def jsonEscC (e : Char) : Bool :=
  e = '"' || e = '\\' || e = '/' || e = 'b' || e = 'f' || e = 'n' || e = 'r' || e = 't'

/-- ASCII hexadecimal digit test. -/
def isHexC (c : Char) : Bool :=
  isDigitC c || (97 ≤ c.toNat && c.toNat ≤ 102) || (65 ≤ c.toNat && c.toNat ≤ 70)

/-- Require a fixed run of characters at the head of the input. -/
def stripPre : Str → Str → Option Str
  | [], s => some s
  | p :: ps, c :: rest => if c = p then stripPre ps rest else none
  | _ :: _, [] => none

/-- Body of a JSON string after the opening quote: content characters
and escapes up to the closing quote. -/
def parseJStrBody : Str → Option Str
  | [] => none
  | c :: rest =>
    if c = '"' then some rest
    else if c = '\\' then
      match rest with
      | [] => none
      | e :: r2 =>
        if e = 'u' then
          match r2 with
          | h1 :: h2 :: h3 :: h4 :: r3 =>
            if isHexC h1 && isHexC h2 && isHexC h3 && isHexC h4 then parseJStrBody r3 else none
          | _ => none
        else if jsonEscC e then parseJStrBody r2
        else none
    else if 32 ≤ c.toNat then parseJStrBody rest
    else none

/-- One or more ASCII digits, consuming the whole run. -/
def digits1 : Str → Option Str
  | c :: r => if isDigitC c then some (r.dropWhile isDigitC) else none
  | [] => none

/-- Fraction and exponent suffix of a JSON number. -/
def parseJNumTail (s : Str) : Option Str :=
  (match s with
    | c :: r => if c = '.' then digits1 r else some s
    | [] => some s).bind fun s1 =>
  match s1 with
  | c :: r =>
    if c = 'e' ∨ c = 'E' then
      match r with
      | c2 :: r2 => if c2 = '+' ∨ c2 = '-' then digits1 r2 else digits1 r
      | [] => none
    else some s1
  | [] => some s1

/-- JSON number: optional minus, integer part without leading zeros,
optional fraction and exponent. -/
def parseJNum (s : Str) : Option Str :=
  match (match s with | c :: r => if c = '-' then r else s | [] => s) with
  | c :: r =>
    if c = '0' then parseJNumTail r
    else if isDigitC c then parseJNumTail (r.dropWhile isDigitC)
    else none
  | [] => none

mutual

/-- One JSON value starting at the head of the input (no leading
whitespace), returning the unconsumed rest. -/
def jsonVal : Nat → Str → Option Str
  | 0, _ => none
  | n + 1, s =>
    match s with
    | [] => none
    | c :: rest =>
      if c = '"' then parseJStrBody rest
      else if c = lbraceC then jsonObjBody n (skipWs rest)
      else if c = '[' then jsonArrBody n (skipWs rest)
      else if c = 't' then stripPre ['r', 'u', 'e'] rest
      else if c = 'f' then stripPre ['a', 'l', 's', 'e'] rest
      else if c = 'n' then stripPre ['u', 'l', 'l'] rest
      else parseJNum s

/-- Object body after the opening brace and whitespace. -/
def jsonObjBody : Nat → Str → Option Str
  | 0, _ => none
  | n + 1, s =>
    match s with
    | [] => none
    | c :: rest => if c = rbraceC then some rest else jsonMembers n s

/-- One or more `"key": value` members followed by the closing brace. -/
def jsonMembers : Nat → Str → Option Str
  | 0, _ => none
  | n + 1, s =>
    match s with
    | [] => none
    | c :: rest =>
      if c = '"' then
        (parseJStrBody rest).bind fun s1 =>
        (expectCh ':' (skipWs s1)).bind fun s2 =>
        (jsonVal n (skipWs s2)).bind fun s3 =>
        match skipWs s3 with
        | c2 :: r2 =>
          if c2 = ',' then jsonMembers n (skipWs r2)
          else if c2 = rbraceC then some r2
          else none
        | [] => none
      else none

/-- Array body after the opening bracket and whitespace. -/
def jsonArrBody : Nat → Str → Option Str
  | 0, _ => none
  | n + 1, s =>
    match s with
    | [] => none
    | c :: rest => if c = ']' then some rest else jsonElems n s

/-- One or more array elements followed by the closing bracket. -/
def jsonElems : Nat → Str → Option Str
  | 0, _ => none
  | n + 1, s =>
    (jsonVal n s).bind fun s1 =>
    match skipWs s1 with
    | c :: r =>
      if c = ',' then jsonElems n (skipWs r)
      else if c = ']' then some r
      else none
    | [] => none

end

/-- Model of the syntax check performed by `json.Unmarshal` into a
`json.RawMessage`: the input must be one well-formed JSON value
surrounded by nothing but whitespace. -/
def jsonValid (s : Str) : Bool :=
  match jsonVal (2 * s.length + 4) (skipWs s) with
  | some r => (skipWs r).isEmpty
  | none => false

deriving instance DecidableEq for Except

/-- Decode error taxonomy of `ParseEvent` (models.go). -/
inductive ParseErr where
  | malformedLine (got : Nat)
  | invalidTimestamp
  | invalidUserID
  | emptyEventType
  | invalidPayload
deriving DecidableEq

/-- Model of the `Event` struct (models.go): timestamp, int64 user id,
event type, and the raw JSON payload text. -/
structure Event where
  Timestamp : GoTime
  UserID : Int
  EventType : Str
  Payload : Str
deriving DecidableEq

/-- Model of `ParseEvent` (models.go): split on `" | "`, require exactly
four parts, then validate timestamp, user id, event type and payload,
each after trimming surrounding whitespace. -/
def ParseEvent (line : Str) : Except ParseErr Event :=
  let parts := splitSep line
  if parts.length = 4 then
    match parseRFC3339 (trim (parts.getD 0 [])) with
    | none => .error .invalidTimestamp
    | some ts =>
      match parseInt (trim (parts.getD 1 [])) with
      | none => .error .invalidUserID
      | some uid =>
        let et := trim (parts.getD 2 [])
        if et = [] then .error .emptyEventType
        else
          let pl := trim (parts.getD 3 [])
          if jsonValid pl then .ok ⟨ts, uid, et, pl⟩ else .error .invalidPayload
  else .error (.malformedLine parts.length)

/-- Model of `Event.String` (models.go): `fmt.Sprintf("%s | %d | %s | %s",
e.Timestamp.Format(time.RFC3339), e.UserID, e.EventType,
string(e.Payload))`. -/
def Event.String (e : Event) : Str :=
  formatRFC3339 e.Timestamp ++ sepChars ++
    (formatInt e.UserID ++ sepChars ++ (e.EventType ++ sepChars ++ e.Payload))

/-- Model of the `QueryFilters` struct (models.go).  As in Go, an absent
bound is represented by the zero time. -/
structure QueryFilters where
  EventType : Str
  From : GoTime
  To : GoTime
deriving DecidableEq

/-- Model of `QueryFilters.IsEmpty` (models.go). -/
def QueryFilters.IsEmpty (qf : QueryFilters) : Bool :=
  qf.EventType == ([] : Str) && qf.From.IsZero && qf.To.IsZero

/-- Model of `QueryFilters.Validate` (models.go): fails exactly when
both bounds are non-zero and `From` is after `To`; `true` means valid. -/
def QueryFilters.Validate (qf : QueryFilters) : Bool :=
  !(!qf.From.IsZero && !qf.To.IsZero && qf.From.After qf.To)

/-- One row of the SQLite `events` table: `user_id`, `timestamp` (TEXT,
canonical RFC3339 form), `event_type`, `payload`. -/
structure Row where
  user_id : Int
  timestamp : Str
  event_type : Str
  payload : Str
deriving DecidableEq

/-- Arguments passed to the prepared INSERT by `EventStore.Record`:
`(event.UserID, event.Timestamp.Format(time.RFC3339), event.EventType,
string(event.Payload))`. -/
def eventToRow (e : Event) : Row :=
  ⟨e.UserID, formatRFC3339 e.Timestamp, e.EventType, e.Payload⟩

/-- Mutable state of the ingestion loop in `EventStore.Record`:
committed rows, rows staged in the open transaction, the running count
of successful inserts, the current batch size, and counters for
committed transactions, printed warnings and attempted inserts. -/
structure IngestState where
  persisted : List Row
  inflight : List Row
  count : Nat
  batchSize : Nat
  commits : Nat
  warnings : Nat
  execs : Nat

/-- Observable outcome of `EventStore.Record`: the returned count, the
rows durable in committed transactions, the number of committed
transactions, the number of warnings printed, and whether the call
returned without error. -/
structure IngestResult where
  count : Nat
  persisted : List Row
  commits : Nat
  warnings : Nat
  ok : Bool
deriving DecidableEq

/-- The batch threshold `maxBatchSize` hard-coded in `EventStore.Record`. -/
def maxBatchSize : Nat := 10000

/-- Loop of `EventStore.Record` over the scanned lines, parametrised by
the batch threshold `B`.  `failOn = some n` injects an unrecoverable
write failure at the `n`-th `stmt.Exec` call, after which the deferred
`tx.Rollback` discards the in-flight batch; `none` means storage never
fails.  Empty lines are skipped silently; lines that fail to decode are
skipped after a warning; at end of stream the remaining batch is
committed unconditionally. -/
def recordAux (B : Nat) (failOn : Option Nat) : List Str → IngestState → IngestResult
  | [], st =>
    ⟨st.count, st.persisted ++ st.inflight, st.commits + 1, st.warnings, true⟩
  | l :: ls, st =>
    if l = [] then recordAux B failOn ls st
    else
      match ParseEvent l with
      | .error _ => recordAux B failOn ls { st with warnings := st.warnings + 1 }
      | .ok e =>
        if failOn = some (st.execs + 1) then
          ⟨st.count, st.persisted, st.commits, st.warnings, false⟩
        else
          let st2 : IngestState :=
            { st with
              inflight := st.inflight ++ [eventToRow e], count := st.count + 1,
              batchSize := st.batchSize + 1, execs := st.execs + 1 }
          if st2.batchSize ≥ B then
            recordAux B failOn ls
              { st2 with
                persisted := st2.persisted ++ st2.inflight, inflight := [],
                batchSize := 0, commits := st2.commits + 1 }
          else recordAux B failOn ls st2

/-- Initial loop state of `EventStore.Record`. -/
def initState : IngestState := ⟨[], [], 0, 0, 0, 0, 0⟩

/-- Model of `EventStore.Record` on an already-scanned list of lines,
with the hard-coded batch threshold. -/
def EventStore.Record (failOn : Option Nat) (lines : List Str) : IngestResult :=
  recordAux maxBatchSize failOn lines initState

/-- The row a line contributes to the store when it decodes, `none` for
empty or undecodable lines. -/
def lineRow (l : Str) : Option Row :=
  if l = [] then none
  else
    match ParseEvent l with
    | .ok e => some (eventToRow e)
    | .error _ => none

/-- All rows a stream of lines contributes, in order. -/
def validRows (lines : List Str) : List Row := lines.filterMap lineRow

/-- Whether a line is non-empty yet fails to decode (it draws a
warning during ingestion). -/
def badLine (l : Str) : Bool :=
  !(l.isEmpty) && (match ParseEvent l with | .ok _ => false | .error _ => true)

/-- Bytewise less-or-equal on strings: SQLite's BINARY collation used
for the TEXT comparisons `timestamp >= ?`, `timestamp <= ?` and for
`ORDER BY timestamp`. -/
def strLeB : Str → Str → Bool
  | [], _ => true
  | _ :: _, [] => false
  | a :: as2, b :: bs =>
    if a.toNat < b.toNat then true
    else if b.toNat < a.toNat then false
    else strLeB as2 bs

/-- The WHERE clause built by `EventStore.Query`: mandatory `user_id`
match, then an `event_type` match and textual timestamp bounds for each
filter that is set. -/
def matchRow (uid : Int) (f : QueryFilters) (r : Row) : Bool :=
  r.user_id == uid &&
  (f.EventType == ([] : Str) || r.event_type == f.EventType) &&
  (f.From.IsZero || strLeB (formatRFC3339 f.From) r.timestamp) &&
  (f.To.IsZero || strLeB r.timestamp (formatRFC3339 f.To))

/-- Insert a row into a list sorted by timestamp text. -/
def insertRow (r : Row) : List Row → List Row
  | [] => [r]
  | x :: xs => if strLeB r.timestamp x.timestamp then r :: x :: xs else x :: insertRow r xs

/-- Sort rows by timestamp text: `ORDER BY timestamp` with SQLite's
BINARY collation (ties keep no documented order; insertion sort is one
refinement of it). -/
def sortRows : List Row → List Row
  | [] => []
  | x :: xs => insertRow x (sortRows xs)

/-- The row sequence scanned by `EventStore.Query`: filtered by the
WHERE clause, ordered by timestamp text. -/
def queryRows (uid : Int) (f : QueryFilters) (rows : List Row) : List Row :=
  sortRows (rows.filter (matchRow uid f))

/-- Observable outcome of `EventStore.Query`: the events printed in
order, the returned count, and whether an error was returned. -/
structure QueryResult where
  events : List Event
  count : Nat
  errored : Bool
deriving DecidableEq

/-- Row scan loop of `EventStore.Query`: each row's stored timestamp is
parsed back; a parse failure aborts the scan, keeping the events and
count emitted so far. -/
def scanRows : List Row → QueryResult
  | [] => ⟨[], 0, false⟩
  | r :: rs =>
    match parseRFC3339 r.timestamp with
    | none => ⟨[], 0, true⟩
    | some t =>
      let q := scanRows rs
      ⟨⟨t, r.user_id, r.event_type, r.payload⟩ :: q.events, q.count + 1, q.errored⟩

/-- Model of `EventStore.Query`: validate the filters before any
storage access, then scan the filtered, ordered rows. -/
def EventStore.Query (uid : Int) (f : QueryFilters) (rows : List Row) : QueryResult :=
  if f.Validate then scanRows (queryRows uid f rows) else ⟨[], 0, true⟩

theorem isSepStart_true {c : Char} {rest : Str} (h : isSepStart c rest = true) :
    c = ' ' ∧ ∃ t, rest = '|' :: ' ' :: t := by
  match rest with
  | [] => simp [isSepStart] at h
  | [c2] => simp [isSepStart] at h
  | c2 :: c3 :: t =>
    simp only [isSepStart, Bool.and_eq_true, beq_iff_eq] at h
    exact ⟨h.1, t, by rw [h.2.1, h.2.2]⟩

theorem isSepStart_false {c : Char} {rest : Str} (h : isSepStart c rest = false) :
    ∀ t, c = ' ' → rest = '|' :: ' ' :: t → False := by
  intro t hc hr
  subst hc hr
  simp [isSepStart] at h

theorem splitSep_cons (c : Char) (rest : Str) :
    splitSep (c :: rest) =
      if isSepStart c rest then [] :: splitSep (rest.drop 2)
      else consHead c (splitSep rest) := by
  by_cases h : isSepStart c rest = true
  · obtain ⟨hc, t, ht⟩ := isSepStart_true h
    subst hc ht
    simp [splitSep, h]
  · rw [if_neg h]
    exact splitSep.eq_3 c rest (isSepStart_false (Bool.eq_false_iff.mpr h))

theorem splitSep_ne_nil (l : Str) : splitSep l ≠ [] := by
  induction l using splitSep.induct with
  | case1 => simp [splitSep]
  | case2 rest ih => simp [splitSep]
  | case3 c rest h ih =>
    rw [splitSep.eq_3 c rest h]
    cases hs : splitSep rest with
    | nil => exact absurd hs ih
    | cons f fs => simp [consHead]

theorem joinSep_splitSep (l : Str) : joinSep (splitSep l) = l := by
  induction l using splitSep.induct with
  | case1 => simp [splitSep, joinSep]
  | case2 rest ih =>
    rw [splitSep.eq_2]
    cases hs : splitSep rest with
    | nil => exact absurd hs (splitSep_ne_nil rest)
    | cons f fs =>
      rw [hs] at ih
      show joinSep ([] :: f :: fs) = ' ' :: '|' :: ' ' :: rest
      simp [joinSep, sepChars, ih]
  | case3 c rest h ih =>
    rw [splitSep.eq_3 c rest h]
    cases hs : splitSep rest with
    | nil => exact absurd hs (splitSep_ne_nil rest)
    | cons f fs =>
      rw [hs] at ih
      cases fs with
      | nil => simpa [consHead, joinSep] using congrArg (c :: ·) ih
      | cons g gs =>
        show joinSep ((c :: f) :: g :: gs) = c :: rest
        simp only [joinSep] at ih ⊢
        simpa using congrArg (c :: ·) ih

theorem containsSep_tail {c : Char} {rest : Str}
    (h : containsSep (c :: rest) = false) : containsSep rest = false := by
  simp only [containsSep, Bool.or_eq_false_iff] at h
  exact h.2

theorem endsSpacePipe_tail {c : Char} {rest : Str}
    (h : endsSpacePipe (c :: rest) = false) : endsSpacePipe rest = false := by
  unfold endsSpacePipe at h ⊢
  cases hr : rest.reverse with
  | nil => rfl
  | cons a t =>
    cases t with
    | nil => rfl
    | cons b t2 =>
      have : (c :: rest).reverse = a :: b :: (t2 ++ [c]) := by
        simp [List.reverse_cons, hr]
      rw [this] at h
      exact h

theorem splitSep_of_not_containsSep {a : Str} (h : containsSep a = false) :
    splitSep a = [a] := by
  induction a with
  | nil => simp [splitSep]
  | cons c rest ih =>
    simp only [containsSep, Bool.or_eq_false_iff] at h
    rw [splitSep_cons, if_neg (by simp [h.1]), ih h.2]
    rfl

theorem splitSep_append_sep {a : Str} (b : Str)
    (h1 : containsSep a = false) (h2 : endsSpacePipe a = false) :
    splitSep (a ++ sepChars ++ b) = a :: splitSep b := by
  induction a with
  | nil =>
    show splitSep (' ' :: '|' :: ' ' :: b) = [] :: splitSep b
    rw [splitSep.eq_2]
  | cons c a2 ih =>
    have htail : containsSep a2 = false := containsSep_tail h1
    have htail2 : endsSpacePipe a2 = false := endsSpacePipe_tail h2
    have hns : isSepStart c (a2 ++ sepChars ++ b) = false := by
      match a2 with
      | [] =>
        simp [isSepStart, sepChars]
      | [c2] =>
        simp only [containsSep, isSepStart, Bool.or_eq_false_iff] at h1
        by_cases hc : c = ' '
        · by_cases hc2 : c2 = '|'
          · exfalso
            subst hc hc2
            simp [endsSpacePipe] at h2
          · simp [isSepStart, sepChars, hc2]
        · simp [isSepStart, hc]
      | c2 :: c3 :: a3 =>
        simp only [containsSep, isSepStart, Bool.or_eq_false_iff] at h1
        have := h1.1
        cases hb : (c == ' ' : Bool) with
        | false => simp [isSepStart, hb]
        | true =>
          rw [hb] at this
          simp only [Bool.true_and] at this
          simp [isSepStart, hb, this]
    rw [show (c :: a2) ++ sepChars ++ b = c :: (a2 ++ sepChars ++ b) from rfl,
      splitSep_cons, if_neg (by simpa using hns), ih htail htail2]
    rfl

theorem mem_of_mem_splitSep {l : Str} {c : Char} :
    ∀ f, f ∈ splitSep l → c ∈ f → c ∈ l := by
  induction l using splitSep.induct with
  | case1 =>
    intro f hf hc
    simp only [splitSep, List.mem_singleton] at hf
    subst hf
    exact absurd hc (List.not_mem_nil c)
  | case2 rest ih =>
    intro f hf hc
    rw [splitSep.eq_2] at hf
    rcases List.mem_cons.mp hf with h | h
    · subst h; exact absurd hc (List.not_mem_nil c)
    · exact List.mem_cons_of_mem _
        (List.mem_cons_of_mem _ (List.mem_cons_of_mem _ (ih f h hc)))
  | case3 c0 rest h ih =>
    intro f hf hc
    rw [splitSep.eq_3 c0 rest h] at hf
    cases hs : splitSep rest with
    | nil => exact absurd hs (splitSep_ne_nil rest)
    | cons g gs =>
      rw [hs] at hf
      simp only [consHead] at hf
      rcases List.mem_cons.mp hf with h2 | h2
      · subst h2
        rcases List.mem_cons.mp hc with h3 | h3
        · rw [h3]; exact List.mem_cons_self c0 rest
        · exact List.mem_cons_of_mem _
            (ih g (by rw [hs]; exact List.mem_cons_self g gs) h3)
      · exact List.mem_cons_of_mem _
          (ih f (by rw [hs]; exact List.mem_cons_of_mem g h2) hc)

theorem decDigit_toNat : ∀ d, d < 10 → (decDigit d).toNat = 48 + d := by decide

theorem isDigitC_decDigit (d : Nat) (h : d < 10) : isDigitC (decDigit d) = true := by
  simp only [isDigitC, decDigit_toNat d h, Bool.and_eq_true, decide_eq_true_eq]
  omega

theorem digitVal_decDigit (d : Nat) (h : d < 10) : digitVal (decDigit d) = d := by
  simp only [digitVal, decDigit_toNat d h]
  omega

theorem dropWhile_of_all_false {p : Char → Bool} {s : Str}
    (h : ∀ c ∈ s, p c = false) : s.dropWhile p = s := by
  cases s with
  | nil => rfl
  | cons c t => simp [List.dropWhile_cons, h c (List.mem_cons_self c t)]

theorem trim_of_no_space {s : Str} (h : ∀ c ∈ s, isSpaceC c = false) : trim s = s := by
  unfold trim
  rw [dropWhile_of_all_false h,
    dropWhile_of_all_false (fun c hc => h c (List.mem_reverse.mp hc)), List.reverse_reverse]

theorem dropWhile_of_all_true {p : Char → Bool} {s : Str}
    (h : ∀ c ∈ s, p c = true) : s.dropWhile p = [] := by
  induction s with
  | nil => rfl
  | cons c t ih =>
    rw [List.dropWhile_cons, if_pos (by simp [h c (List.mem_cons_self c t)])]
    exact ih (fun x hx => h x (List.mem_cons_of_mem c hx))

theorem trim_of_all_space {s : Str} (h : ∀ c ∈ s, isSpaceC c = true) : trim s = [] := by
  unfold trim
  rw [dropWhile_of_all_true h]
  rfl

theorem optBind_some {α β : Type} (a : α) (f : α → Option β) : (some a).bind f = f a := rfl

theorem parse2_d2 (n : Nat) (h : n < 100) (rest : Str) :
    parse2 (d2 n ++ rest) = some (n, rest) := by
  have h1 : n / 10 < 10 := by omega
  have h2 : n % 10 < 10 := by omega
  show (if isDigitC (decDigit (n / 10)) && isDigitC (decDigit (n % 10)) then
      some (digitVal (decDigit (n / 10)) * 10 + digitVal (decDigit (n % 10)), rest)
    else none) = some (n, rest)
  rw [isDigitC_decDigit _ h1, isDigitC_decDigit _ h2, digitVal_decDigit _ h1,
    digitVal_decDigit _ h2, if_pos (show (true && true) = true from rfl)]
  have : n / 10 * 10 + n % 10 = n := by omega
  rw [this]

theorem parse4_d4 (n : Nat) (h : n < 10000) (rest : Str) :
    parse4 (d4 n ++ rest) = some (n, rest) := by
  have h1 : n / 1000 < 10 := by omega
  have h2 : n / 100 % 10 < 10 := by omega
  have h3 : n / 10 % 10 < 10 := by omega
  have h4 : n % 10 < 10 := by omega
  show (if isDigitC (decDigit (n / 1000)) && isDigitC (decDigit (n / 100 % 10)) &&
        isDigitC (decDigit (n / 10 % 10)) && isDigitC (decDigit (n % 10)) then
      some (((digitVal (decDigit (n / 1000)) * 10 + digitVal (decDigit (n / 100 % 10))) * 10 +
        digitVal (decDigit (n / 10 % 10))) * 10 + digitVal (decDigit (n % 10)), rest)
    else none) = some (n, rest)
  rw [isDigitC_decDigit _ h1, isDigitC_decDigit _ h2, isDigitC_decDigit _ h3,
    isDigitC_decDigit _ h4, digitVal_decDigit _ h1, digitVal_decDigit _ h2,
    digitVal_decDigit _ h3, digitVal_decDigit _ h4,
    if_pos (show (true && true && true && true) = true from rfl)]
  have : ((n / 1000 * 10 + n / 100 % 10) * 10 + n / 10 % 10) * 10 + n % 10 = n := by omega
  rw [this]

theorem expectCh_cons (ch : Char) (s : Str) : expectCh ch (ch :: s) = some s := by
  show (if ch = ch then some s else none) = some s
  rw [if_pos rfl]

theorem decToNat_append_digit (l : Str) (c : Char) :
    decToNat (l ++ [c]) = decToNat l * 10 + digitVal c := by
  unfold decToNat
  rw [List.foldl_append]
  rfl

theorem natToDecAux_congr :
    ∀ n fuel fuel2, n < fuel → n < fuel2 → natToDecAux fuel n = natToDecAux fuel2 n := by
  intro n
  induction n using Nat.strong_induction_on with
  | _ n ih =>
    intro fuel fuel2 h1 h2
    match fuel, fuel2 with
    | f1 + 1, f2 + 1 =>
      show (if n < 10 then [decDigit n] else natToDecAux f1 (n / 10) ++ [decDigit (n % 10)]) =
        (if n < 10 then [decDigit n] else natToDecAux f2 (n / 10) ++ [decDigit (n % 10)])
      by_cases h : n < 10
      · rw [if_pos h, if_pos h]
      · rw [if_neg h, if_neg h,
          ih (n / 10) (Nat.div_lt_self (by omega) (by omega)) f1 f2 (by omega) (by omega)]

theorem natToDec_eq (n : Nat) :
    natToDec n = if n < 10 then [decDigit n] else natToDec (n / 10) ++ [decDigit (n % 10)] := by
  show (if n < 10 then [decDigit n] else natToDecAux n (n / 10) ++ [decDigit (n % 10)]) = _
  by_cases h : n < 10
  · rw [if_pos h, if_pos h]
  · rw [if_neg h, if_neg h]
    unfold natToDec
    rw [natToDecAux_congr (n / 10) n (n / 10 + 1) (by omega) (by omega)]

theorem decToNat_natToDec (n : Nat) : decToNat (natToDec n) = n := by
  induction n using Nat.strong_induction_on with
  | _ n ih =>
    rw [natToDec_eq]
    by_cases h : n < 10
    · rw [if_pos h]
      show decToNat [decDigit n] = n
      simp [decToNat, digitVal_decDigit n h]
    · rw [if_neg h, decToNat_append_digit,
        ih (n / 10) (Nat.div_lt_self (by omega) (by omega)),
        digitVal_decDigit (n % 10) (by omega)]
      omega

theorem natToDec_digits (n : Nat) : ∀ c ∈ natToDec n, ∃ d, d < 10 ∧ c = decDigit d := by
  induction n using Nat.strong_induction_on with
  | _ n ih =>
    rw [natToDec_eq]
    by_cases h : n < 10
    · rw [if_pos h]
      intro c hc
      simp only [List.mem_singleton] at hc
      exact ⟨n, h, hc⟩
    · rw [if_neg h]
      intro c hc
      rcases List.mem_append.mp hc with h2 | h2
      · exact ih (n / 10) (Nat.div_lt_self (by omega) (by omega)) c h2
      · simp only [List.mem_singleton] at h2
        exact ⟨n % 10, by omega, h2⟩

theorem natToDec_ne_nil (n : Nat) : natToDec n ≠ [] := by
  rw [natToDec_eq]
  by_cases h : n < 10
  · rw [if_pos h]; simp
  · rw [if_neg h]; simp

theorem parseIntNat_natToDec (n : Nat) : parseIntNat (natToDec n) = some n := by
  have hall : (natToDec n).all isDigitC = true := by
    rw [List.all_eq_true]
    intro c hc
    obtain ⟨d, hd, rfl⟩ := natToDec_digits n c hc
    exact isDigitC_decDigit d hd
  cases hs : natToDec n with
  | nil => exact absurd hs (natToDec_ne_nil n)
  | cons c cs =>
    show (if (c :: cs).all isDigitC then some (decToNat (c :: cs)) else none) = some n
    rw [← hs, if_pos hall, decToNat_natToDec]

theorem decDigit_ne_plus {d : Nat} (h : d < 10) : decDigit d ≠ '+' := by
  intro he
  have h2 : (decDigit d).toNat = ('+' : Char).toNat := congrArg Char.toNat he
  rw [decDigit_toNat d h] at h2
  have h3 : ('+' : Char).toNat = 43 := rfl
  omega

theorem decDigit_ne_minus {d : Nat} (h : d < 10) : decDigit d ≠ '-' := by
  intro he
  have h2 : (decDigit d).toNat = ('-' : Char).toNat := congrArg Char.toNat he
  rw [decDigit_toNat d h] at h2
  have h3 : ('-' : Char).toNat = 45 := rfl
  omega

theorem parseInt_formatInt (v : Int) (h1 : -(2 ^ 63) ≤ v) (h2 : v ≤ int64Max) :
    parseInt (formatInt v) = some v := by
  by_cases hv : v < 0
  · rw [formatInt, if_pos hv]
    show (if ('-' : Char) = '+' then
        (parseIntNat (natToDec v.natAbs)).bind fun n =>
          if (n : Int) ≤ int64Max then some (n : Int) else none
      else if ('-' : Char) = '-' then
        (parseIntNat (natToDec v.natAbs)).bind fun n =>
          if (n : Int) ≤ 2 ^ 63 then some (-(n : Int)) else none
      else
        (parseIntNat ('-' :: natToDec v.natAbs)).bind fun n =>
          if (n : Int) ≤ int64Max then some (n : Int) else none) = some v
    rw [if_neg (by decide), if_pos rfl, parseIntNat_natToDec, optBind_some,
      if_pos (by omega)]
    exact congrArg some (by omega)
  · rw [formatInt, if_neg hv]
    cases hs : natToDec v.toNat with
    | nil => exact absurd hs (natToDec_ne_nil _)
    | cons c cs =>
      obtain ⟨d, hd, hc⟩ := natToDec_digits v.toNat c (hs ▸ List.mem_cons_self c cs)
      show (if c = '+' then
          (parseIntNat cs).bind fun n =>
            if (n : Int) ≤ int64Max then some (n : Int) else none
        else if c = '-' then
          (parseIntNat cs).bind fun n =>
            if (n : Int) ≤ 2 ^ 63 then some (-(n : Int)) else none
        else
          (parseIntNat (c :: cs)).bind fun n =>
            if (n : Int) ≤ int64Max then some (n : Int) else none) = some v
      rw [if_neg (hc ▸ decDigit_ne_plus hd), if_neg (hc ▸ decDigit_ne_minus hd), ← hs,
        parseIntNat_natToDec, optBind_some, if_pos (by unfold int64Max at h2 ⊢; omega)]
      exact congrArg some (by omega)

theorem isSpaceC_false_of_bound {c : Char} (h : 43 ≤ c.toNat) : isSpaceC c = false := by
  simp only [isSpaceC, Bool.or_eq_false_iff, Bool.and_eq_false_iff, beq_eq_false_iff_ne, ne_eq,
    decide_eq_false_iff_not]
  omega

theorem containsSep_of_no_pipe {a : Str} (h : ∀ c ∈ a, c.toNat ≠ 124) :
    containsSep a = false := by
  induction a with
  | nil => rfl
  | cons c rest ih =>
    have hrest : ∀ x ∈ rest, x.toNat ≠ 124 := fun x hx => h x (List.mem_cons_of_mem c hx)
    simp only [containsSep, Bool.or_eq_false_iff]
    refine ⟨?_, ih hrest⟩
    unfold isSepStart
    cases rest with
    | nil => simp
    | cons c2 t =>
      cases t with
      | nil => simp
      | cons c3 t2 =>
        have h2 : ¬(c2 = '|') := by
          intro he
          exact hrest c2 (List.mem_cons_self _ _) (by rw [he]; rfl)
        simp [h2]

theorem endsSpacePipe_of_no_pipe {a : Str} (h : ∀ c ∈ a, c.toNat ≠ 124) :
    endsSpacePipe a = false := by
  unfold endsSpacePipe
  cases hr : a.reverse with
  | nil => rfl
  | cons c t =>
    cases t with
    | nil => rfl
    | cons c2 t2 =>
      have hc : c ∈ a := List.mem_reverse.mp (by rw [hr]; exact List.mem_cons_self _ _)
      have h2 : ¬(c = '|') := fun he => h c hc (by rw [he]; rfl)
      simp [h2]

theorem decDigit_bound {d : Nat} (h : d < 10) :
    43 ≤ (decDigit d).toNat ∧ (decDigit d).toNat ≤ 90 := by
  rw [decDigit_toNat d h]
  omega

theorem mem_d2_bound {n : Nat} (h : n < 100) :
    ∀ c ∈ d2 n, 43 ≤ c.toNat ∧ c.toNat ≤ 90 := by
  intro c hc
  rcases List.mem_cons.mp hc with h1 | h1
  · subst h1; exact decDigit_bound (by omega)
  · simp only [List.mem_singleton] at h1
    subst h1; exact decDigit_bound (by omega)

theorem mem_d4_bound {n : Nat} (h : n < 10000) :
    ∀ c ∈ d4 n, 43 ≤ c.toNat ∧ c.toNat ≤ 90 := by
  intro c hc
  rcases List.mem_cons.mp hc with h1 | h1
  · subst h1; exact decDigit_bound (by omega)
  rcases List.mem_cons.mp h1 with h2 | h2
  · subst h2; exact decDigit_bound (by omega)
  rcases List.mem_cons.mp h2 with h3 | h3
  · subst h3; exact decDigit_bound (by omega)
  simp only [List.mem_singleton] at h3
  subst h3; exact decDigit_bound (by omega)

theorem formatOffset_bound {ofs : Int} (h : ofs.natAbs ≤ 1439) :
    ∀ c ∈ formatOffset ofs, 43 ≤ c.toNat ∧ c.toNat ≤ 90 := by
  intro c hc
  unfold formatOffset at hc
  by_cases h0 : ofs = 0
  · rw [if_pos h0] at hc
    simp only [List.mem_singleton] at hc
    subst hc
    exact ⟨by decide, by decide⟩
  · rw [if_neg h0] at hc
    rcases List.mem_cons.mp hc with h1 | h1
    · subst h1
      by_cases hp : (0 : Int) < ofs
      · rw [if_pos hp]; exact ⟨by decide, by decide⟩
      · rw [if_neg hp]; exact ⟨by decide, by decide⟩
    · rcases List.mem_append.mp h1 with h2 | h2
      · exact mem_d2_bound (by omega) c h2
      · rcases List.mem_cons.mp h2 with h3 | h3
        · subst h3; exact ⟨by decide, by decide⟩
        · exact mem_d2_bound (by omega) c h3

theorem daysInMonth_le (y m : Nat) : daysInMonth y m ≤ 31 := by
  unfold daysInMonth
  split
  · split <;> omega
  · split <;> omega

theorem formatRFC3339_bound {t : GoTime} (hv : t.Valid) :
    ∀ c ∈ formatRFC3339 t, 43 ≤ c.toNat ∧ c.toNat ≤ 90 := by
  obtain ⟨hy, hmo1, hmo2, hd1, hd2, hh, hmi, hs2, hna, hofs⟩ := hv
  have hdm := daysInMonth_le t.year t.month
  intro c hc
  unfold formatRFC3339 at hc
  rcases List.mem_append.mp hc with h1 | h1
  · exact mem_d4_bound (by omega) c h1
  rcases List.mem_cons.mp h1 with h2 | h2
  · subst h2; exact ⟨by decide, by decide⟩
  rcases List.mem_append.mp h2 with h3 | h3
  · exact mem_d2_bound (by omega) c h3
  rcases List.mem_cons.mp h3 with h4 | h4
  · subst h4; exact ⟨by decide, by decide⟩
  rcases List.mem_append.mp h4 with h5 | h5
  · exact mem_d2_bound (by omega) c h5
  rcases List.mem_cons.mp h5 with h6 | h6
  · subst h6; exact ⟨by decide, by decide⟩
  rcases List.mem_append.mp h6 with h7 | h7
  · exact mem_d2_bound (by omega) c h7
  rcases List.mem_cons.mp h7 with h8 | h8
  · subst h8; exact ⟨by decide, by decide⟩
  rcases List.mem_append.mp h8 with h9 | h9
  · exact mem_d2_bound (by omega) c h9
  rcases List.mem_cons.mp h9 with h10 | h10
  · subst h10; exact ⟨by decide, by decide⟩
  rcases List.mem_append.mp h10 with h11 | h11
  · exact mem_d2_bound (by omega) c h11
  · exact formatOffset_bound hofs c h11

theorem formatInt_bound (v : Int) : ∀ c ∈ formatInt v, 43 ≤ c.toNat ∧ c.toNat ≤ 90 := by
  intro c hc
  unfold formatInt at hc
  by_cases hv : v < 0
  · rw [if_pos hv] at hc
    rcases List.mem_cons.mp hc with h1 | h1
    · subst h1; exact ⟨by decide, by decide⟩
    · obtain ⟨d, hd, rfl⟩ := natToDec_digits _ c h1
      exact decDigit_bound hd
  · rw [if_neg hv] at hc
    obtain ⟨d, hd, rfl⟩ := natToDec_digits _ c hc
    exact decDigit_bound hd

theorem trim_formatRFC3339 {t : GoTime} (hv : t.Valid) :
    trim (formatRFC3339 t) = formatRFC3339 t :=
  trim_of_no_space (fun c hc => isSpaceC_false_of_bound (formatRFC3339_bound hv c hc).1)

theorem containsSep_formatRFC3339 {t : GoTime} (hv : t.Valid) :
    containsSep (formatRFC3339 t) = false :=
  containsSep_of_no_pipe (fun c hc => by
    have := (formatRFC3339_bound hv c hc).2
    omega)

theorem endsSpacePipe_formatRFC3339 {t : GoTime} (hv : t.Valid) :
    endsSpacePipe (formatRFC3339 t) = false :=
  endsSpacePipe_of_no_pipe (fun c hc => by
    have := (formatRFC3339_bound hv c hc).2
    omega)

theorem trim_formatInt (v : Int) : trim (formatInt v) = formatInt v :=
  trim_of_no_space (fun c hc => isSpaceC_false_of_bound (formatInt_bound v c hc).1)

theorem containsSep_formatInt (v : Int) : containsSep (formatInt v) = false :=
  containsSep_of_no_pipe (fun c hc => by
    have := (formatInt_bound v c hc).2
    omega)

theorem endsSpacePipe_formatInt (v : Int) : endsSpacePipe (formatInt v) = false :=
  endsSpacePipe_of_no_pipe (fun c hc => by
    have := (formatInt_bound v c hc).2
    omega)

theorem parse2_d2_nil (n : Nat) (h : n < 100) : parse2 (d2 n) = some (n, []) := by
  have h2 := parse2_d2 n h []
  rwa [List.append_nil] at h2

theorem parseFracOpt_cons (c : Char) (rest : Str) :
    parseFracOpt (c :: rest) =
      if c = '.' then
        if rest.takeWhile isDigitC = [] then none
        else some (nanoOfFrac (rest.takeWhile isDigitC), rest.dropWhile isDigitC)
      else some (0, c :: rest) := rfl

theorem parseOffset_cons (c : Char) (rest : Str) :
    parseOffset (c :: rest) =
      if c = 'Z' then some (0, rest)
      else if c = '+' then parseOffNum 1 rest
      else if c = '-' then parseOffNum (-1) rest
      else none := rfl

theorem formatOffset_head (ofs : Int) :
    ∃ c r, formatOffset ofs = c :: r ∧ (c = 'Z' ∨ c = '+' ∨ c = '-') := by
  unfold formatOffset
  by_cases h0 : ofs = 0
  · rw [if_pos h0]; exact ⟨'Z', [], rfl, Or.inl rfl⟩
  · rw [if_neg h0]
    by_cases hp : (0 : Int) < ofs
    · rw [if_pos hp]; exact ⟨'+', _, rfl, Or.inr (Or.inl rfl)⟩
    · rw [if_neg hp]; exact ⟨'-', _, rfl, Or.inr (Or.inr rfl)⟩

theorem parseFracOpt_formatOffset (ofs : Int) :
    parseFracOpt (formatOffset ofs) = some (0, formatOffset ofs) := by
  obtain ⟨c, r, hcr, hc⟩ := formatOffset_head ofs
  rw [hcr, parseFracOpt_cons,
    if_neg (by rcases hc with h | h | h <;> subst h <;> decide)]

theorem parseOffset_formatOffset (ofs : Int) (h : ofs.natAbs ≤ 1439) :
    parseOffset (formatOffset ofs) = some (ofs, []) := by
  by_cases h0 : ofs = 0
  · subst h0; decide
  · rw [formatOffset, if_neg h0]
    by_cases hp : (0 : Int) < ofs
    · rw [if_pos hp, parseOffset_cons, if_neg (by decide), if_pos rfl]
      unfold parseOffNum
      simp only [parse2_d2 (ofs.natAbs / 60) (by omega),
        parse2_d2_nil (ofs.natAbs % 60) (by omega), optBind_some, expectCh_cons]
      rw [if_pos ⟨by omega, by omega⟩]
      have hval : (1 : Int) * ((ofs.natAbs / 60 : Nat) * 60 + (ofs.natAbs % 60 : Nat)) = ofs := by
        omega
      rw [hval]
    · rw [if_neg hp, parseOffset_cons, if_neg (by decide), if_neg (by decide), if_pos rfl]
      unfold parseOffNum
      simp only [parse2_d2 (ofs.natAbs / 60) (by omega),
        parse2_d2_nil (ofs.natAbs % 60) (by omega), optBind_some, expectCh_cons]
      rw [if_pos ⟨by omega, by omega⟩]
      have hval : (-1 : Int) * ((ofs.natAbs / 60 : Nat) * 60 + (ofs.natAbs % 60 : Nat)) = ofs := by
        omega
      rw [hval]

theorem parseRFC3339_formatRFC3339 {t : GoTime} (hv : t.Valid) (hn : t.nano = 0) :
    parseRFC3339 (formatRFC3339 t) = some t := by
  obtain ⟨y, mo, dy, hr, mi, se, na, os⟩ := t
  have hn2 : na = 0 := hn
  subst hn2
  unfold GoTime.Valid at hv
  dsimp only at hv
  obtain ⟨hy, hmo1, hmo2, hd1, hd2, hh, hmi, hs2, hna, hofs⟩ := hv
  have hdm := daysInMonth_le y mo
  unfold formatRFC3339 parseRFC3339
  dsimp only
  simp only [parse4_d4 y (by omega), optBind_some, expectCh_cons,
    parse2_d2 mo (by omega), parse2_d2 dy (by omega), parse2_d2 hr (by omega),
    parse2_d2 mi (by omega), parse2_d2 se (by omega),
    parseFracOpt_formatOffset, parseOffset_formatOffset os (by omega)]
  rw [if_pos (by refine ⟨?_, hmo1, hmo2, hd1, hd2, hh, hmi, hs2⟩; trivial)]

theorem ParseEvent_ok {line f1 f2 f3 f4 : Str} {t : GoTime} {uid : Int}
    (hs : splitSep line = [f1, f2, f3, f4])
    (ht : parseRFC3339 (trim f1) = some t)
    (hu : parseInt (trim f2) = some uid)
    (he : ¬(trim f3 = []))
    (hj : jsonValid (trim f4) = true) :
    ParseEvent line = .ok ⟨t, uid, trim f3, trim f4⟩ := by
  simp only [ParseEvent, hs, List.getD_cons_zero, List.getD_cons_succ, List.length_cons,
    List.length_nil, ht, hu, List.length_singleton]
  rw [if_pos trivial, if_neg he, if_pos hj]

theorem ParseEvent_malformed {line : Str} (h : (splitSep line).length ≠ 4) :
    ParseEvent line = .error (.malformedLine (splitSep line).length) := by
  simp only [ParseEvent]
  rw [if_neg h]

/-- C7: splitting on the exact separator `" | "` must yield exactly four
fields; any other count — in particular 3 or 5 fields — makes
`ParseEvent` fail with the malformed-line error carrying the field
count, before any field validation, producing no event. -/
theorem c7_field_count (line : Str) (h : (splitSep line).length ≠ 4) :
    ParseEvent line = .error (.malformedLine (splitSep line).length) :=
  ParseEvent_malformed h

/-- Witness for C7 at the 3-field line `"a | b | c"` and the 5-field
line `"a | b | c | d | e"`. -/
theorem c7_field_count_witness :
    (splitSep ("a | b | c".toList)).length = 3 ∧
    ParseEvent ("a | b | c".toList) = .error (.malformedLine 3) ∧
    (splitSep ("a | b | c | d | e".toList)).length = 5 ∧
    ParseEvent ("a | b | c | d | e".toList) = .error (.malformedLine 5) := by
  refine ⟨by decide, ?_, by decide, ?_⟩
  · have h := c7_field_count ("a | b | c".toList) (by decide)
    rwa [show (splitSep ("a | b | c".toList)).length = 3 by decide] at h
  · have h := c7_field_count ("a | b | c | d | e".toList) (by decide)
    rwa [show (splitSep ("a | b | c | d | e".toList)).length = 5 by decide] at h

/-- C1 as stated is refuted: the line with user-id field `"007"`
satisfies every hypothesis of the claim — four fields, an RFC3339
timestamp already in the encoder's form, a decimal int64 user id, a
non-empty event type, valid JSON, no surrounding whitespace on any
field — yet re-encoding the decoded event yields `"... | 7 | ..."`,
which differs from the input line. -/
theorem c1_roundtrip_counterexample :
    splitSep ("2023-08-14T10:00:00Z | 007 | login | \x7b\x7d".toList) =
      ["2023-08-14T10:00:00Z".toList, "007".toList, "login".toList, "\x7b\x7d".toList] ∧
    parseRFC3339 ("2023-08-14T10:00:00Z".toList) = some ⟨2023, 8, 14, 10, 0, 0, 0, 0⟩ ∧
    formatRFC3339 ⟨2023, 8, 14, 10, 0, 0, 0, 0⟩ = "2023-08-14T10:00:00Z".toList ∧
    parseInt ("007".toList) = some 7 ∧
    trim ("007".toList) = "007".toList ∧
    "login".toList ≠ ([] : Str) ∧
    jsonValid ("\x7b\x7d".toList) = true ∧
    (ParseEvent ("2023-08-14T10:00:00Z | 007 | login | \x7b\x7d".toList)).map Event.String =
      .ok ("2023-08-14T10:00:00Z | 7 | login | \x7b\x7d".toList) ∧
    ("2023-08-14T10:00:00Z | 7 | login | \x7b\x7d".toList : Str) ≠
      "2023-08-14T10:00:00Z | 007 | login | \x7b\x7d".toList := by
  decide

/-- C1 (amended): for a line of exactly four fields, none with
surrounding whitespace, whose timestamp field is in the form the encoder
emits AND whose user-id field is in the canonical decimal form the
encoder emits (no leading zeros, no plus sign), with a non-empty event
type and a valid JSON payload, encoding the decoded event reproduces the
line byte for byte. -/
theorem c1_roundtrip_amended (L f1 f2 f3 f4 : Str) (t : GoTime) (uid : Int)
    (hs : splitSep L = [f1, f2, f3, f4])
    (ht : parseRFC3339 f1 = some t) (htf : formatRFC3339 t = f1)
    (h1 : trim f1 = f1)
    (hu : parseInt f2 = some uid) (huf : formatInt uid = f2)
    (h2 : trim f2 = f2)
    (h3 : trim f3 = f3) (he : f3 ≠ [])
    (h4 : trim f4 = f4) (hj : jsonValid f4 = true) :
    (ParseEvent L).map Event.String = .ok L := by
  rw [ParseEvent_ok hs (by rwa [h1]) (by rwa [h2]) (by rw [h3]; exact he) (by rwa [h4])]
  show Except.ok (Event.String ⟨t, uid, trim f3, trim f4⟩) = Except.ok L
  rw [h3, h4]
  unfold Event.String
  dsimp only
  rw [htf, huf]
  have hjoin : joinSep [f1, f2, f3, f4] =
      f1 ++ sepChars ++ (f2 ++ sepChars ++ (f3 ++ sepChars ++ f4)) := rfl
  rw [← hjoin]
  have h5 := joinSep_splitSep L
  rw [hs] at h5
  exact congrArg Except.ok h5

/-- Witness for C1 (amended) at the canonical scenario line. -/
theorem c1_roundtrip_amended_witness :
    (ParseEvent ("2023-08-14T10:00:00Z | 42 | login | \x7b\"ip\":\"10.0.0.1\"\x7d".toList)).map
        Event.String =
      .ok ("2023-08-14T10:00:00Z | 42 | login | \x7b\"ip\":\"10.0.0.1\"\x7d".toList) :=
  c1_roundtrip_amended _ ("2023-08-14T10:00:00Z".toList) ("42".toList) ("login".toList)
    ("\x7b\"ip\":\"10.0.0.1\"\x7d".toList) ⟨2023, 8, 14, 10, 0, 0, 0, 0⟩ 42
    (by decide) (by decide) (by decide) (by decide) (by decide) (by decide) (by decide)
    (by decide) (by decide) (by decide) (by decide)

/-- C2 as stated is refuted: the event with the non-empty event type
`"a | b"` and valid JSON payload encodes to a five-field line, so
decoding the encoded line fails with a malformed-line error instead of
reproducing the event — `Decode(Encode(e))` can fail. -/
theorem c2_counterexample :
    ("a | b".toList : Str) ≠ [] ∧
    jsonValid ("\x7b\x7d".toList) = true ∧
    ParseEvent (Event.String
        ⟨⟨2023, 8, 14, 10, 0, 0, 0, 0⟩, 1, "a | b".toList, "\x7b\x7d".toList⟩) =
      .error (.malformedLine 5) := by
  decide

/-- C2 (amended): decoding the encoded event reproduces the event field
for field, provided the event is one the encoder can represent
faithfully: a timestamp with valid RFC3339 components, whole-minute
offset within `±23:59` and zero sub-second part; a user id in int64
range; an event type that is non-empty, has no surrounding whitespace,
contains no `" | "` and does not end in `" |"`; and a payload of valid
JSON with no surrounding whitespace and no `" | "`. -/
theorem c2_decode_encode_amended (e : Event)
    (hv : e.Timestamp.Valid) (hn : e.Timestamp.nano = 0)
    (hlo : -(2 ^ 63) ≤ e.UserID) (hhi : e.UserID ≤ int64Max)
    (het1 : e.EventType ≠ []) (het2 : trim e.EventType = e.EventType)
    (het3 : containsSep e.EventType = false) (het4 : endsSpacePipe e.EventType = false)
    (hp1 : trim e.Payload = e.Payload) (hp2 : containsSep e.Payload = false)
    (hp3 : jsonValid e.Payload = true) :
    ParseEvent (Event.String e) = .ok e := by
  obtain ⟨t, uid, et, pl⟩ := e
  dsimp only at hv hn hlo hhi het1 het2 het3 het4 hp1 hp2 hp3
  have hsplit : splitSep (Event.String ⟨t, uid, et, pl⟩) =
      [formatRFC3339 t, formatInt uid, et, pl] := by
    unfold Event.String
    dsimp only
    rw [splitSep_append_sep _ (containsSep_formatRFC3339 hv) (endsSpacePipe_formatRFC3339 hv),
      splitSep_append_sep _ (containsSep_formatInt uid) (endsSpacePipe_formatInt uid),
      splitSep_append_sep _ het3 het4,
      splitSep_of_not_containsSep hp2]
  rw [ParseEvent_ok hsplit
    (by rw [trim_formatRFC3339 hv]; exact parseRFC3339_formatRFC3339 hv hn)
    (by rw [trim_formatInt]; exact parseInt_formatInt uid hlo hhi)
    (by rw [het2]; exact het1)
    (by rwa [hp1])]
  rw [het2, hp1]

/-- Witness for C2 (amended) at the canonical scenario event. -/
theorem c2_decode_encode_amended_witness :
    ParseEvent (Event.String
        ⟨⟨2023, 8, 14, 10, 0, 0, 0, 0⟩, 42, "login".toList, "\x7b\"ip\":\"10.0.0.1\"\x7d".toList⟩) =
      .ok ⟨⟨2023, 8, 14, 10, 0, 0, 0, 0⟩, 42, "login".toList,
        "\x7b\"ip\":\"10.0.0.1\"\x7d".toList⟩ :=
  c2_decode_encode_amended _ (by decide) (by decide) (by decide) (by decide) (by decide)
    (by decide) (by decide) (by decide) (by decide) (by decide) (by decide)

theorem lineRow_of_error {l : Str} {err : ParseErr} (hp : ParseEvent l = .error err) :
    lineRow l = none := by
  unfold lineRow
  by_cases hl : l = []
  · rw [if_pos hl]
  · rw [if_neg hl, hp]

theorem lineRow_of_ok {l : Str} {e : Event} (hl : ¬(l = [])) (hp : ParseEvent l = .ok e) :
    lineRow l = some (eventToRow e) := by
  unfold lineRow
  rw [if_neg hl, hp]

theorem validRows_cons_none {l : Str} (h : lineRow l = none) (ls : List Str) :
    validRows (l :: ls) = validRows ls := by
  unfold validRows
  rw [List.filterMap_cons, h]

theorem validRows_cons_some {l : Str} {r : Row} (h : lineRow l = some r) (ls : List Str) :
    validRows (l :: ls) = r :: validRows ls := by
  unfold validRows
  rw [List.filterMap_cons, h]

theorem badLine_of_error {l : Str} {err : ParseErr} (hl : ¬(l = []))
    (hp : ParseEvent l = .error err) : badLine l = true := by
  unfold badLine
  rw [hp]
  cases l with
  | nil => exact absurd rfl hl
  | cons c t => rfl

theorem badLine_of_ok {l : Str} {e : Event} (hp : ParseEvent l = .ok e) :
    badLine l = false := by
  unfold badLine
  rw [hp]
  exact Bool.and_false _

theorem recordAux_none (B : Nat) (hB : 0 < B) :
    ∀ (ls : List Str) (st : IngestState),
      st.batchSize = st.inflight.length → st.inflight.length < B →
      recordAux B none ls st =
        ⟨st.count + (validRows ls).length,
         st.persisted ++ st.inflight ++ validRows ls,
         st.commits + (st.batchSize + (validRows ls).length) / B + 1,
         st.warnings + (ls.filter badLine).length,
         true⟩ := by
  intro ls
  induction ls with
  | nil =>
    intro st h1 h2
    show (⟨st.count, st.persisted ++ st.inflight, st.commits + 1, st.warnings, true⟩ :
      IngestResult) = _
    simp [validRows]
    exact Nat.div_eq_of_lt (by omega)
  | cons l ls ih =>
    intro st h1 h2
    by_cases hl : l = []
    · subst hl
      rw [show recordAux B none ([] :: ls) st = recordAux B none ls st from rfl,
        ih st h1 h2, validRows_cons_none (show lineRow ([] : Str) = none from rfl),
        List.filter_cons_of_neg (by decide : ¬(badLine [] = true))]
    · cases hp : ParseEvent l with
      | error err =>
        have hstep : recordAux B none (l :: ls) st =
            recordAux B none ls { st with warnings := st.warnings + 1 } := by
          simp only [recordAux, hp, if_neg hl]
        rw [hstep, ih { st with warnings := st.warnings + 1 } h1 h2,
          validRows_cons_none (lineRow_of_error hp),
          List.filter_cons_of_pos (badLine_of_error hl hp)]
        simp only [List.length_cons]
        rw [IngestResult.mk.injEq]
        exact ⟨rfl, rfl, rfl, by omega, rfl⟩
      | ok e =>
        have hfail : ¬((none : Option Nat) = some (st.execs + 1)) := fun h =>
          Option.noConfusion h
        by_cases hbs : st.batchSize + 1 ≥ B
        · have hstep : recordAux B none (l :: ls) st = recordAux B none ls
              ⟨st.persisted ++ (st.inflight ++ [eventToRow e]), [], st.count + 1, 0,
               st.commits + 1, st.warnings, st.execs + 1⟩ := by
            simp only [recordAux, hp, if_neg hl, if_neg hfail, if_pos hbs]
          rw [hstep, ih ⟨st.persisted ++ (st.inflight ++ [eventToRow e]), [], st.count + 1, 0,
              st.commits + 1, st.warnings, st.execs + 1⟩ rfl hB,
            validRows_cons_some (lineRow_of_ok hl hp),
            List.filter_cons_of_neg (by rw [badLine_of_ok hp]; exact Bool.false_ne_true)]
          simp only [List.length_cons]
          rw [IngestResult.mk.injEq]
          refine ⟨by omega, by simp [List.append_assoc], ?_, rfl, rfl⟩
          have harith : st.batchSize + ((validRows ls).length + 1) =
              (validRows ls).length + B := by omega
          rw [harith, Nat.add_div_right _ hB]
          simp only [Nat.zero_add]
          omega
        · have hstep : recordAux B none (l :: ls) st = recordAux B none ls
              ⟨st.persisted, st.inflight ++ [eventToRow e], st.count + 1, st.batchSize + 1,
               st.commits, st.warnings, st.execs + 1⟩ := by
            simp only [recordAux, hp, if_neg hl, if_neg hfail, if_neg hbs]
          rw [hstep, ih ⟨st.persisted, st.inflight ++ [eventToRow e], st.count + 1,
              st.batchSize + 1, st.commits, st.warnings, st.execs + 1⟩
              (by simp [h1]) (by simp; omega),
            validRows_cons_some (lineRow_of_ok hl hp),
            List.filter_cons_of_neg (by rw [badLine_of_ok hp]; exact Bool.false_ne_true)]
          simp only [List.length_cons]
          rw [IngestResult.mk.injEq]
          refine ⟨by omega, by simp [List.append_assoc], ?_, rfl, rfl⟩
          have harith : st.batchSize + 1 + (validRows ls).length =
              st.batchSize + ((validRows ls).length + 1) := by omega
          rw [harith]

theorem recordAux_fail (B : Nat) (hB : 0 < B) (n : Nat) :
    ∀ (ls : List Str) (st : IngestState),
      st.batchSize = st.inflight.length → st.inflight.length < B →
      st.count = st.execs →
      st.execs < n → n ≤ st.execs + (validRows ls).length →
      (recordAux B (some n) ls st).ok = false ∧
      (recordAux B (some n) ls st).count = n - 1 ∧
      (recordAux B (some n) ls st).commits =
        st.commits + (st.batchSize + (n - 1 - st.execs)) / B ∧
      (recordAux B (some n) ls st).persisted =
        st.persisted ++ (st.inflight ++ (validRows ls).take (n - 1 - st.execs)).take
          (st.batchSize + (n - 1 - st.execs) - (st.batchSize + (n - 1 - st.execs)) % B) := by
  intro ls
  induction ls with
  | nil =>
    intro st h1 h2 h3 h4 h5
    simp only [validRows, List.filterMap_nil, List.length_nil] at h5
    omega
  | cons l ls ih =>
    intro st h1 h2 h3 h4 h5
    by_cases hl : l = []
    · subst hl
      rw [show recordAux B (some n) ([] :: ls) st = recordAux B (some n) ls st from rfl,
        validRows_cons_none (show lineRow ([] : Str) = none from rfl)]
      exact ih st h1 h2 h3 h4
        (by rwa [validRows_cons_none (show lineRow ([] : Str) = none from rfl)] at h5)
    · cases hp : ParseEvent l with
      | error err =>
        have hstep : recordAux B (some n) (l :: ls) st =
            recordAux B (some n) ls { st with warnings := st.warnings + 1 } := by
          simp only [recordAux, hp, if_neg hl]
        rw [hstep, validRows_cons_none (lineRow_of_error hp)]
        exact ih { st with warnings := st.warnings + 1 } h1 h2 h3 h4
          (by rwa [validRows_cons_none (lineRow_of_error hp)] at h5)
      | ok e =>
        by_cases hfn : st.execs + 1 = n
        · have hstep : recordAux B (some n) (l :: ls) st =
              ⟨st.count, st.persisted, st.commits, st.warnings, false⟩ := by
            simp only [recordAux, hp, if_neg hl,
              if_pos (show (some n : Option Nat) = some (st.execs + 1) by rw [hfn])]
          rw [hstep]
          refine ⟨rfl, by dsimp only; omega, ?_, ?_⟩
          · have hm : n - 1 - st.execs = 0 := by omega
            dsimp only
            rw [hm, Nat.add_zero, Nat.div_eq_of_lt (by omega), Nat.add_zero]
          · have hm : n - 1 - st.execs = 0 := by omega
            dsimp only
            rw [hm, Nat.add_zero, Nat.mod_eq_of_lt (by omega), Nat.sub_self,
              List.take_zero, List.append_nil]
        · have hne : ¬(some n = some (st.execs + 1)) := by
            intro hcon
            exact hfn (Option.some.inj hcon).symm
          have hlt : st.execs + 1 < n := by omega
          have hm : n - 1 - st.execs = (n - 1 - (st.execs + 1)) + 1 := by omega
          have hh5 : n ≤ st.execs + 1 + (validRows ls).length := by
            rw [validRows_cons_some (lineRow_of_ok hl hp)] at h5
            simp only [List.length_cons] at h5
            omega
          by_cases hbs : st.batchSize + 1 ≥ B
          · have hstep : recordAux B (some n) (l :: ls) st = recordAux B (some n) ls
                ⟨st.persisted ++ (st.inflight ++ [eventToRow e]), [], st.count + 1, 0,
                 st.commits + 1, st.warnings, st.execs + 1⟩ := by
              simp only [recordAux, hp, if_neg hl, if_neg hne, if_pos hbs]
            obtain ⟨hok, hcount, hcommits, hpers⟩ :=
              ih ⟨st.persisted ++ (st.inflight ++ [eventToRow e]), [], st.count + 1, 0,
                  st.commits + 1, st.warnings, st.execs + 1⟩ rfl hB
                (show st.count + 1 = st.execs + 1 by omega) hlt hh5
            rw [hstep, validRows_cons_some (lineRow_of_ok hl hp)]
            refine ⟨hok, hcount, ?_, ?_⟩
            · rw [hcommits]
              dsimp only
              rw [hm]
              have harith : st.batchSize + ((n - 1 - (st.execs + 1)) + 1) =
                  (n - 1 - (st.execs + 1)) + B := by omega
              rw [harith, Nat.add_div_right _ hB]
              simp only [Nat.zero_add]
              omega
            · rw [hpers]
              dsimp only
              rw [hm, List.take_succ_cons]
              simp only [Nat.zero_add, List.nil_append]
              have hb2 : st.batchSize + ((n - 1 - (st.execs + 1)) + 1) =
                  B + (n - 1 - (st.execs + 1)) := by omega
              rw [hb2, Nat.add_mod_left]
              have harg : B + (n - 1 - (st.execs + 1)) - (n - 1 - (st.execs + 1)) % B =
                  B + ((n - 1 - (st.execs + 1)) - (n - 1 - (st.execs + 1)) % B) := by
                have := Nat.mod_le (n - 1 - (st.execs + 1)) B
                omega
              rw [harg]
              have hlen : (st.inflight ++ [eventToRow e]).length = B := by
                simp only [List.length_append, List.length_singleton]
                omega
              rw [show st.inflight ++ (eventToRow e :: (validRows ls).take (n - 1 - (st.execs + 1))) =
                  (st.inflight ++ [eventToRow e]) ++ (validRows ls).take (n - 1 - (st.execs + 1))
                  from by simp, ← hlen, List.take_append]
              simp [List.append_assoc]
          · have hstep : recordAux B (some n) (l :: ls) st = recordAux B (some n) ls
                ⟨st.persisted, st.inflight ++ [eventToRow e], st.count + 1, st.batchSize + 1,
                 st.commits, st.warnings, st.execs + 1⟩ := by
              simp only [recordAux, hp, if_neg hl, if_neg hne, if_neg hbs]
            obtain ⟨hok, hcount, hcommits, hpers⟩ :=
              ih ⟨st.persisted, st.inflight ++ [eventToRow e], st.count + 1, st.batchSize + 1,
                  st.commits, st.warnings, st.execs + 1⟩
                (by simp only [List.length_append, List.length_singleton]; omega)
                (by simp only [List.length_append, List.length_singleton]; omega)
                (show st.count + 1 = st.execs + 1 by omega) hlt hh5
            rw [hstep, validRows_cons_some (lineRow_of_ok hl hp)]
            refine ⟨hok, hcount, ?_, ?_⟩
            · rw [hcommits]
              dsimp only
              rw [hm]
              have harith : st.batchSize + 1 + (n - 1 - (st.execs + 1)) =
                  st.batchSize + ((n - 1 - (st.execs + 1)) + 1) := by omega
              rw [harith]
            · rw [hpers]
              dsimp only
              rw [hm, List.take_succ_cons]
              have harith : st.batchSize + 1 + (n - 1 - (st.execs + 1)) =
                  st.batchSize + ((n - 1 - (st.execs + 1)) + 1) := by omega
              rw [harith,
                show st.inflight ++ (eventToRow e :: (validRows ls).take (n - 1 - (st.execs + 1))) =
                  (st.inflight ++ [eventToRow e]) ++ (validRows ls).take (n - 1 - (st.execs + 1))
                  from by simp]

theorem validRows_length_of_all_some {lines : List Str}
    (h : ∀ l ∈ lines, lineRow l ≠ none) : (validRows lines).length = lines.length := by
  induction lines with
  | nil => rfl
  | cons l ls ih =>
    cases hr : lineRow l with
    | none => exact absurd hr (h l (List.mem_cons_self _ _))
    | some r =>
      rw [validRows_cons_some hr, List.length_cons,
        ih (fun x hx => h x (List.mem_cons_of_mem _ hx)), List.length_cons]

theorem validRows_length_add_bad {lines : List Str} (h : ∀ l ∈ lines, l ≠ []) :
    (validRows lines).length + (lines.filter badLine).length = lines.length := by
  induction lines with
  | nil => rfl
  | cons l ls ih =>
    have hl := h l (List.mem_cons_self _ _)
    have ihh := ih (fun x hx => h x (List.mem_cons_of_mem _ hx))
    cases hp : ParseEvent l with
    | ok e =>
      rw [validRows_cons_some (lineRow_of_ok hl hp),
        List.filter_cons_of_neg (by rw [badLine_of_ok hp]; exact Bool.false_ne_true),
        List.length_cons, List.length_cons]
      omega
    | error err =>
      rw [validRows_cons_none (lineRow_of_error hp),
        List.filter_cons_of_pos (badLine_of_error hl hp),
        List.length_cons, List.length_cons]
      omega

theorem length_eq_four {α : Type} {l : List α} (h : l.length = 4) :
    ∃ a b c d, l = [a, b, c, d] := by
  match l with
  | [a, b, c, d] => exact ⟨a, b, c, d, rfl⟩
  | [] => exact absurd h (by simp)
  | [_] => exact absurd h (by simp)
  | [_, _] => exact absurd h (by simp)
  | [_, _, _] => exact absurd h (by simp)
  | _ :: _ :: _ :: _ :: _ :: _ =>
    exfalso
    simp only [List.length_cons] at h
    omega

theorem ParseEvent_bad_ts {line f1 f2 f3 f4 : Str} (hs : splitSep line = [f1, f2, f3, f4])
    (ht : parseRFC3339 (trim f1) = none) : ParseEvent line = .error .invalidTimestamp := by
  simp only [ParseEvent, hs, List.getD_cons_zero, List.getD_cons_succ, List.length_cons,
    List.length_nil, ht, List.length_singleton]
  rw [if_pos trivial]

theorem ParseEvent_error_of_whitespace {l : Str} (hl : l ≠ [])
    (hsp : ∀ c ∈ l, isSpaceC c = true) : ∃ err, ParseEvent l = .error err := by
  by_cases hlen : (splitSep l).length = 4
  · obtain ⟨f1, f2, f3, f4, hs⟩ := length_eq_four hlen
    have hf1 : ∀ c ∈ f1, isSpaceC c = true := fun c hc =>
      hsp c (mem_of_mem_splitSep f1 (by rw [hs]; exact List.mem_cons_self _ _) hc)
    exact ⟨.invalidTimestamp, ParseEvent_bad_ts hs (by rw [trim_of_all_space hf1]; rfl)⟩
  · exact ⟨_, ParseEvent_malformed hlen⟩

/-- C9 as stated is refuted: a line consisting of a single space is
empty after whitespace trimming, yet ingesting it emits a warning (it is
handed to the decoder, which rejects it) — it is not skipped silently. -/
theorem c9_whitespace_counterexample :
    trim (" ".toList) = [] ∧ (EventStore.Record none [" ".toList]).warnings = 1 := by
  decide

/-- C9 (amended): only lines that are exactly empty are skipped
silently — no warning, no record, no change of state at all; a
non-empty line that consists solely of whitespace is instead a decode
failure: it is skipped with a warning and contributes neither a record
nor a count. -/
theorem c9_empty_skip_amended :
    (∀ (B : Nat) (failOn : Option Nat) (ls : List Str) (st : IngestState),
      recordAux B failOn ([] :: ls) st = recordAux B failOn ls st) ∧
    (∀ (l : Str), l ≠ [] → (∀ c ∈ l, isSpaceC c = true) →
      ∀ (B : Nat) (failOn : Option Nat) (ls : List Str) (st : IngestState),
        recordAux B failOn (l :: ls) st =
          recordAux B failOn ls { st with warnings := st.warnings + 1 }) := by
  refine ⟨fun B failOn ls st => rfl, fun l hl hsp B failOn ls st => ?_⟩
  obtain ⟨err, herr⟩ := ParseEvent_error_of_whitespace hl hsp
  simp only [recordAux, herr, if_neg hl]

/-- Witness for C9 (amended): the empty line leaves the state unchanged;
the single-space line only increments the warning counter. -/
theorem c9_empty_skip_amended_witness :
    recordAux 10000 none ([] :: [" ".toList]) initState =
      recordAux 10000 none [" ".toList] initState ∧
    recordAux 10000 none ([' '] :: []) initState =
      recordAux 10000 none [] { initState with warnings := initState.warnings + 1 } :=
  ⟨c9_empty_skip_amended.1 10000 none [" ".toList] initState,
   c9_empty_skip_amended.2 [' '] (by decide) (by decide) 10000 none [] initState⟩

/-- C5: a stream of non-empty lines of which `M` fail to decode is
processed to the end — the call succeeds — every failing line draws a
warning, and the committed count is exactly `N − M`. -/
theorem c5_skip_semantics (lines : List Str) (h : ∀ l ∈ lines, l ≠ []) :
    (EventStore.Record none lines).ok = true ∧
    (EventStore.Record none lines).count =
      lines.length - (lines.filter badLine).length ∧
    (EventStore.Record none lines).warnings = (lines.filter badLine).length := by
  have hrec := recordAux_none maxBatchSize (by decide) lines initState rfl (by decide)
  have hlen := validRows_length_add_bad h
  rw [show EventStore.Record none lines = recordAux maxBatchSize none lines initState
    from rfl, hrec]
  refine ⟨rfl, ?_, ?_⟩
  · show 0 + (validRows lines).length = lines.length - (lines.filter badLine).length
    omega
  · show 0 + (lines.filter badLine).length = (lines.filter badLine).length
    omega

/-- Witness for C5 on a three-line stream whose middle line is
malformed: the count is 2 and one warning is emitted. -/
theorem c5_skip_semantics_witness :
    (EventStore.Record none ["2023-08-14T10:00:00Z | 1 | a | \x7b\x7d".toList,
      "oops".toList, "2023-08-14T11:00:00Z | 2 | b | \x7b\x7d".toList]).ok = true ∧
    (EventStore.Record none ["2023-08-14T10:00:00Z | 1 | a | \x7b\x7d".toList,
      "oops".toList, "2023-08-14T11:00:00Z | 2 | b | \x7b\x7d".toList]).count = 2 ∧
    (EventStore.Record none ["2023-08-14T10:00:00Z | 1 | a | \x7b\x7d".toList,
      "oops".toList, "2023-08-14T11:00:00Z | 2 | b | \x7b\x7d".toList]).warnings = 1 := by
  obtain ⟨h1, h2, h3⟩ := c5_skip_semantics ["2023-08-14T10:00:00Z | 1 | a | \x7b\x7d".toList,
    "oops".toList, "2023-08-14T11:00:00Z | 2 | b | \x7b\x7d".toList] (by decide)
  refine ⟨h1, ?_, ?_⟩
  · rw [h2]; decide
  · rw [h3]; decide

theorem recordFail_init (B : Nat) (hB : 0 < B) (lines : List Str) (n : Nat)
    (h : ∀ l ∈ lines, lineRow l ≠ none) (h0 : 0 < n) (hn : n ≤ lines.length) :
    (recordAux B (some n) lines initState).ok = false ∧
    (recordAux B (some n) lines initState).count = n - 1 ∧
    (recordAux B (some n) lines initState).persisted =
      (validRows lines).take (B * ((n - 1) / B)) ∧
    (recordAux B (some n) lines initState).persisted.length = B * ((n - 1) / B) := by
  have hlen := validRows_length_of_all_some h
  obtain ⟨hok, hcount, hcommits, hpers⟩ :=
    recordAux_fail B hB n lines initState rfl hB rfl h0
      (by show n ≤ 0 + (validRows lines).length; omega)
  have htake : (recordAux B (some n) lines initState).persisted =
      (validRows lines).take (B * ((n - 1) / B)) := by
    rw [hpers]
    show ([] : List Row) ++ (([] : List Row) ++ (validRows lines).take (n - 1 - 0)).take
        (0 + (n - 1 - 0) - (0 + (n - 1 - 0)) % B) = _
    simp only [Nat.zero_add, Nat.sub_zero, List.nil_append]
    rw [List.take_take, min_eq_left (Nat.sub_le _ _)]
    congr 1
    have hq := Nat.div_add_mod (n - 1) B
    generalize hg1 : B * ((n - 1) / B) = p at hq ⊢
    generalize hg2 : (n - 1) % B = r at hq ⊢
    omega
  refine ⟨hok, hcount, htake, ?_⟩
  rw [htake, List.length_take]
  have hmul : B * ((n - 1) / B) ≤ n - 1 := by
    rw [Nat.mul_comm]
    exact Nat.div_mul_le_self (n - 1) B
  rw [min_eq_left (by omega)]

/-- C4 as stated is refuted at the batch threshold `B = 2` with `N = 2`
valid lines: `⌈N/B⌉ = 1`, but the code commits 2 transactions — after
the in-loop commit of the full batch, the final commit still runs on an
empty transaction. -/
theorem c4_commit_count_counterexample :
    (∀ l ∈ ["2023-08-14T10:00:00Z | 1 | a | \x7b\x7d".toList,
            "2023-08-14T11:00:00Z | 1 | b | \x7b\x7d".toList], lineRow l ≠ none) ∧
    (recordAux 2 none ["2023-08-14T10:00:00Z | 1 | a | \x7b\x7d".toList,
      "2023-08-14T11:00:00Z | 1 | b | \x7b\x7d".toList] initState).commits = 2 ∧
    ¬((2 : Nat) = (2 + 2 - 1) / 2) := by
  decide

/-- C4 (amended): a successful ingest of `N` valid lines commits
`⌊N/B⌋ + 1` transactions — one per full batch plus the unconditional
final commit of the remaining, possibly empty, partial batch (this
equals `⌈N/B⌉` exactly when `B` does not divide `N`); and an
unrecoverable write failure at the `n`-th insert leaves exactly the
first `B·⌊(n−1)/B⌋` records persisted: the full batches committed
before the failure, no record of the in-flight batch among them. -/
theorem c4_batch_durability_amended (B : Nat) (hB : 0 < B) (lines : List Str)
    (h : ∀ l ∈ lines, lineRow l ≠ none) :
    ((recordAux B none lines initState).ok = true ∧
     (recordAux B none lines initState).count = lines.length ∧
     (recordAux B none lines initState).persisted = validRows lines ∧
     (recordAux B none lines initState).commits = lines.length / B + 1) ∧
    (∀ n, 0 < n → n ≤ lines.length →
      (recordAux B (some n) lines initState).ok = false ∧
      (recordAux B (some n) lines initState).persisted.length = B * ((n - 1) / B) ∧
      (recordAux B (some n) lines initState).persisted =
        (validRows lines).take (B * ((n - 1) / B))) := by
  have hlen := validRows_length_of_all_some h
  constructor
  · have hrec := recordAux_none B hB lines initState rfl hB
    rw [hrec]
    refine ⟨rfl, ?_, ?_, ?_⟩
    · show 0 + (validRows lines).length = lines.length
      omega
    · show ([] : List Row) ++ ([] : List Row) ++ validRows lines = validRows lines
      simp
    · show 0 + (0 + (validRows lines).length) / B + 1 = lines.length / B + 1
      rw [Nat.zero_add, Nat.zero_add, hlen]
  · intro n hn0 hn
    obtain ⟨hok, hcount, htake, hlength⟩ := recordFail_init B hB lines n h hn0 hn
    exact ⟨hok, hlength, htake⟩

/-- Witness for C4 (amended) with `B = 2` and three valid lines: the
successful run commits `3/2 + 1 = 2` transactions; a failure at the
third insert leaves the one full batch of 2 records persisted. -/
theorem c4_batch_durability_amended_witness :
    (recordAux 2 none ["2023-08-14T10:00:00Z | 1 | a | \x7b\x7d".toList,
      "2023-08-14T11:00:00Z | 1 | b | \x7b\x7d".toList,
      "2023-08-14T12:00:00Z | 1 | c | \x7b\x7d".toList] initState).commits = 2 ∧
    (recordAux 2 (some 3) ["2023-08-14T10:00:00Z | 1 | a | \x7b\x7d".toList,
      "2023-08-14T11:00:00Z | 1 | b | \x7b\x7d".toList,
      "2023-08-14T12:00:00Z | 1 | c | \x7b\x7d".toList] initState).ok = false ∧
    (recordAux 2 (some 3) ["2023-08-14T10:00:00Z | 1 | a | \x7b\x7d".toList,
      "2023-08-14T11:00:00Z | 1 | b | \x7b\x7d".toList,
      "2023-08-14T12:00:00Z | 1 | c | \x7b\x7d".toList] initState).persisted.length = 2 := by
  obtain ⟨⟨hok, hcnt, hpers, hcom⟩, hfail⟩ :=
    c4_batch_durability_amended 2 (by decide) ["2023-08-14T10:00:00Z | 1 | a | \x7b\x7d".toList,
      "2023-08-14T11:00:00Z | 1 | b | \x7b\x7d".toList,
      "2023-08-14T12:00:00Z | 1 | c | \x7b\x7d".toList] (by decide)
  obtain ⟨hfok, hflen, hftake⟩ := hfail 3 (by decide) (by decide)
  refine ⟨?_, hfok, ?_⟩
  · rw [hcom]; decide
  · rw [hflen]

/-- C8 as stated is refuted: with a write failure at the second insert
of a two-line stream, no batch has committed (0 records persisted), yet
the call returns count 1 — the returned count includes the record
staged in the aborted in-flight batch. -/
theorem c8_partial_count_counterexample :
    (EventStore.Record (some 2) ["2023-08-14T10:00:00Z | 1 | a | \x7b\x7d".toList,
      "2023-08-14T11:00:00Z | 1 | b | \x7b\x7d".toList]).count = 1 ∧
    (EventStore.Record (some 2) ["2023-08-14T10:00:00Z | 1 | a | \x7b\x7d".toList,
      "2023-08-14T11:00:00Z | 1 | b | \x7b\x7d".toList]).persisted.length = 0 ∧
    ¬((1 : Nat) = 0) := by
  decide

/-- C8 (amended): an unrecoverable write failure at the `n`-th insert
aborts the call with an error; the records actually persisted are
exactly the full batches committed before the failure (the in-flight
batch is rolled back), but the count returned alongside the error is
`n − 1`, the number of inserts that had succeeded — it includes the
records of the aborted in-flight batch rather than excluding them. -/
theorem c8_failure_result_amended (lines : List Str) (n : Nat)
    (h : ∀ l ∈ lines, lineRow l ≠ none) (h0 : 0 < n) (hn : n ≤ lines.length) :
    (EventStore.Record (some n) lines).ok = false ∧
    (EventStore.Record (some n) lines).count = n - 1 ∧
    (EventStore.Record (some n) lines).persisted =
      (validRows lines).take (maxBatchSize * ((n - 1) / maxBatchSize)) ∧
    (EventStore.Record (some n) lines).persisted.length =
      maxBatchSize * ((n - 1) / maxBatchSize) := by
  have hres := recordFail_init maxBatchSize (by decide) lines n h h0 hn
  exact hres

/-- Witness for C8 (amended) at a failure on the second insert of two
valid lines: error, returned count 1, nothing persisted. -/
theorem c8_failure_result_amended_witness :
    (EventStore.Record (some 2) ["2023-08-14T10:00:00Z | 1 | a | \x7b\x7d".toList,
      "2023-08-14T11:00:00Z | 1 | b | \x7b\x7d".toList]).ok = false ∧
    (EventStore.Record (some 2) ["2023-08-14T10:00:00Z | 1 | a | \x7b\x7d".toList,
      "2023-08-14T11:00:00Z | 1 | b | \x7b\x7d".toList]).count = 1 ∧
    (EventStore.Record (some 2) ["2023-08-14T10:00:00Z | 1 | a | \x7b\x7d".toList,
      "2023-08-14T11:00:00Z | 1 | b | \x7b\x7d".toList]).persisted.length = 0 := by
  obtain ⟨hok, hcnt, htake, hlen⟩ :=
    c8_failure_result_amended ["2023-08-14T10:00:00Z | 1 | a | \x7b\x7d".toList,
      "2023-08-14T11:00:00Z | 1 | b | \x7b\x7d".toList] 2 (by decide) (by decide) (by decide)
  refine ⟨hok, by rw [hcnt], by rw [hlen]; decide⟩

theorem strLeB_cons_iff (x y : Char) (as2 bs : Str) :
    strLeB (x :: as2) (y :: bs) = true ↔
      x.toNat < y.toNat ∨ (x.toNat = y.toNat ∧ strLeB as2 bs = true) := by
  show (if x.toNat < y.toNat then true
    else if y.toNat < x.toNat then false else strLeB as2 bs) = true ↔ _
  by_cases h1 : x.toNat < y.toNat
  · simp [h1]
  · rw [if_neg h1]
    by_cases h2 : y.toNat < x.toNat
    · rw [if_pos h2]
      constructor
      · intro hcon; exact absurd hcon (by simp)
      · rintro (hlt | ⟨heq, _⟩)
        · omega
        · omega
    · rw [if_neg h2]
      constructor
      · intro hq; exact Or.inr ⟨by omega, hq⟩
      · rintro (hlt | ⟨_, hq⟩)
        · omega
        · exact hq

theorem strLeB_trans : ∀ a b c : Str,
    strLeB a b = true → strLeB b c = true → strLeB a c = true := by
  intro a
  induction a with
  | nil => intro b c _ _; rfl
  | cons x as2 ih =>
    intro b c h1 h2
    cases b with
    | nil => simp [strLeB] at h1
    | cons y bs =>
      cases c with
      | nil => simp [strLeB] at h2
      | cons z cs =>
        rw [strLeB_cons_iff] at h1 h2 ⊢
        rcases h1 with h1 | ⟨he1, hq1⟩
        · rcases h2 with h2 | ⟨he2, hq2⟩
          · exact Or.inl (by omega)
          · exact Or.inl (by omega)
        · rcases h2 with h2 | ⟨he2, hq2⟩
          · exact Or.inl (by omega)
          · exact Or.inr ⟨by omega, ih bs cs hq1 hq2⟩

theorem strLeB_total : ∀ a b : Str, strLeB a b = true ∨ strLeB b a = true := by
  intro a
  induction a with
  | nil => intro b; exact Or.inl rfl
  | cons x as2 ih =>
    intro b
    cases b with
    | nil => exact Or.inr rfl
    | cons y bs =>
      rw [strLeB_cons_iff, strLeB_cons_iff]
      rcases ih bs with h | h
      · by_cases hxy : x.toNat < y.toNat
        · exact Or.inl (Or.inl hxy)
        · by_cases hyx : y.toNat < x.toNat
          · exact Or.inr (Or.inl hyx)
          · exact Or.inl (Or.inr ⟨by omega, h⟩)
      · by_cases hxy : x.toNat < y.toNat
        · exact Or.inl (Or.inl hxy)
        · by_cases hyx : y.toNat < x.toNat
          · exact Or.inr (Or.inl hyx)
          · exact Or.inr (Or.inr ⟨by omega, h⟩)

theorem mem_insertRow {b r : Row} : ∀ {l : List Row}, b ∈ insertRow r l → b = r ∨ b ∈ l := by
  intro l
  induction l with
  | nil =>
    intro h
    simp only [insertRow, List.mem_singleton] at h
    exact Or.inl h
  | cons x xs ih =>
    intro h
    show b = r ∨ b ∈ x :: xs
    by_cases hc : strLeB r.timestamp x.timestamp = true
    · rw [show insertRow r (x :: xs) = r :: x :: xs from by simp [insertRow, hc]] at h
      rcases List.mem_cons.mp h with h | h
      · exact Or.inl h
      · exact Or.inr h
    · rw [show insertRow r (x :: xs) = x :: insertRow r xs from by
        simp [insertRow, hc]] at h
      rcases List.mem_cons.mp h with h | h
      · exact Or.inr (h ▸ List.mem_cons_self x xs)
      · rcases ih h with h2 | h2
        · exact Or.inl h2
        · exact Or.inr (List.mem_cons_of_mem x h2)

theorem insertRow_pairwise {r : Row} {l : List Row}
    (h : List.Pairwise (fun a b => strLeB a.timestamp b.timestamp = true) l) :
    List.Pairwise (fun a b => strLeB a.timestamp b.timestamp = true) (insertRow r l) := by
  induction l with
  | nil => exact List.pairwise_singleton _ _
  | cons x xs ih =>
    rcases List.pairwise_cons.mp h with ⟨hx, hxs⟩
    show List.Pairwise _
      (if strLeB r.timestamp x.timestamp then r :: x :: xs else x :: insertRow r xs)
    by_cases hc : strLeB r.timestamp x.timestamp = true
    · rw [if_pos hc]
      refine List.pairwise_cons.mpr ⟨?_, h⟩
      intro b hb
      rcases List.mem_cons.mp hb with hb | hb
      · rw [hb]; exact hc
      · exact strLeB_trans _ _ _ hc (hx b hb)
    · rw [if_neg hc]
      refine List.pairwise_cons.mpr ⟨?_, ih hxs⟩
      intro b hb
      rcases mem_insertRow hb with hb | hb
      · rw [hb]
        rcases strLeB_total r.timestamp x.timestamp with h2 | h2
        · exact absurd h2 hc
        · exact h2
      · exact hx b hb

theorem sortRows_pairwise (l : List Row) :
    List.Pairwise (fun a b => strLeB a.timestamp b.timestamp = true) (sortRows l) := by
  induction l with
  | nil => exact List.Pairwise.nil
  | cons x xs ih => exact insertRow_pairwise ih

/-- C3 (amended): for every user id, filter set and stored rows, the
row sequence scanned by `EventStore.Query` is non-decreasing in the
stored timestamp TEXT under bytewise comparison (`ORDER BY timestamp`
with SQLite's BINARY collation).  This coincides with non-decreasing
instants only when all stored timestamps carry the same UTC offset; it
is not instant order in general. -/
theorem c3_query_ordering_amended (uid : Int) (f : QueryFilters) (rows : List Row) :
    List.Pairwise (fun a b => strLeB a.timestamp b.timestamp = true)
      (queryRows uid f rows) :=
  sortRows_pairwise _

/-- C3 as stated is refuted: after ingesting one event at
`2023-08-14T10:00:00+09:00` (01:00 UTC) and one at
`2023-08-14T05:00:00Z` (05:00 UTC) for the same user, an unfiltered
query yields the `05:00Z` event first — its lexicographically smaller
text sorts first — even though its instant is strictly after the other
event's instant: the yielded sequence is not non-decreasing as
instants. -/
theorem c3_instant_order_counterexample :
    (EventStore.Query 1 ⟨[], zeroTime, zeroTime⟩
      (EventStore.Record none ["2023-08-14T10:00:00+09:00 | 1 | a | \x7b\x7d".toList,
        "2023-08-14T05:00:00Z | 1 | b | \x7b\x7d".toList]).persisted).events.map
      (fun e => e.Timestamp) =
      [⟨2023, 8, 14, 5, 0, 0, 0, 0⟩, ⟨2023, 8, 14, 10, 0, 0, 0, 540⟩] ∧
    GoTime.After (⟨2023, 8, 14, 5, 0, 0, 0, 0⟩ : GoTime) ⟨2023, 8, 14, 10, 0, 0, 0, 540⟩ =
      true := by
  decide

/-- C6: `Validate` fails exactly when both bounds are non-zero and
`From` is strictly after `To` (so empty filters always validate); when
validation fails, `Query` returns the error with a zero count and no
events, independently of the stored rows — before any storage access;
and with empty filters the WHERE clause constrains rows by user id
only, matching all of the user's events. -/
theorem c6_filter_validation :
    (∀ f : QueryFilters, f.Validate = false ↔
      (f.From.IsZero = false ∧ f.To.IsZero = false ∧ f.From.After f.To = true)) ∧
    (∀ (f : QueryFilters) (uid : Int) (rows : List Row), f.Validate = false →
      EventStore.Query uid f rows = ⟨[], 0, true⟩) ∧
    (∀ (f : QueryFilters) (uid : Int) (r : Row), f.IsEmpty = true →
      matchRow uid f r = (r.user_id == uid)) := by
  refine ⟨?_, ?_, ?_⟩
  · intro f
    cases hf : f.From.IsZero <;> cases ht : f.To.IsZero <;>
      cases ha : f.From.After f.To <;>
      simp [QueryFilters.Validate, hf, ht, ha]
  · intro f uid rows h
    unfold EventStore.Query
    rw [if_neg (by rw [h]; exact Bool.false_ne_true)]
  · intro f uid r h
    simp only [QueryFilters.IsEmpty, Bool.and_eq_true, beq_iff_eq] at h
    obtain ⟨⟨he, hf⟩, ht⟩ := h
    simp [matchRow, he, hf, ht]

/-- Witness for C6: an inverted range fails validation and short-circuits
the query on a non-empty store; fully empty filters reduce the WHERE
clause to the user-id match. -/
theorem c6_filter_validation_witness :
    QueryFilters.Validate ⟨[], ⟨2024, 1, 1, 0, 0, 0, 0, 0⟩, ⟨2023, 1, 1, 0, 0, 0, 0, 0⟩⟩ =
      false ∧
    EventStore.Query 7 ⟨[], ⟨2024, 1, 1, 0, 0, 0, 0, 0⟩, ⟨2023, 1, 1, 0, 0, 0, 0, 0⟩⟩
      [⟨7, "2023-08-14T05:00:00Z".toList, "a".toList, "\x7b\x7d".toList⟩] = ⟨[], 0, true⟩ ∧
    matchRow 7 ⟨[], zeroTime, zeroTime⟩ ⟨7, "x".toList, "a".toList, "\x7b\x7d".toList⟩ =
      (((7 : Int) : Int) == (7 : Int)) := by
  refine ⟨?_, ?_, ?_⟩
  · exact (c6_filter_validation.1 _).mpr ⟨by decide, by decide, by decide⟩
  · exact c6_filter_validation.2.1 _ 7 _
      ((c6_filter_validation.1 _).mpr ⟨by decide, by decide, by decide⟩)
  · exact c6_filter_validation.2.2 _ 7 _ (by decide)

/-- C10: a time bound equal to Go's zero time value is indistinguishable
from an absent bound: with `From` (resp. `To`) equal to the zero time,
`Validate` never fails because of that bound, and the WHERE clause
applies no lower (resp. upper) timestamp constraint — so an inclusive
bound at the zero instant cannot be expressed through the public
interface. -/
theorem c10_zero_time_bound :
    (∀ f : QueryFilters, f.From = zeroTime → f.Validate = true ∧
      ∀ (uid : Int) (r : Row), matchRow uid f r =
        (r.user_id == uid && (f.EventType == ([] : Str) || r.event_type == f.EventType) &&
          (f.To.IsZero || strLeB r.timestamp (formatRFC3339 f.To)))) ∧
    (∀ f : QueryFilters, f.To = zeroTime → f.Validate = true ∧
      ∀ (uid : Int) (r : Row), matchRow uid f r =
        (r.user_id == uid && (f.EventType == ([] : Str) || r.event_type == f.EventType) &&
          (f.From.IsZero || strLeB (formatRFC3339 f.From) r.timestamp))) := by
  constructor
  · intro f hf
    have hz : f.From.IsZero = true := by rw [hf]; decide
    constructor
    · simp [QueryFilters.Validate, hz]
    · intro uid r
      simp [matchRow, hz, Bool.and_assoc]
  · intro f ht
    have hz : f.To.IsZero = true := by rw [ht]; decide
    constructor
    · simp [QueryFilters.Validate, hz]
    · intro uid r
      simp [matchRow, hz, Bool.and_assoc]

/-- Witness for C10: with either bound at the zero time value and the
other bound set, validation succeeds. -/
theorem c10_zero_time_bound_witness :
    QueryFilters.Validate ⟨[], zeroTime, ⟨2023, 1, 1, 0, 0, 0, 0, 0⟩⟩ = true ∧
    QueryFilters.Validate ⟨[], ⟨2023, 1, 1, 0, 0, 0, 0, 0⟩, zeroTime⟩ = true :=
  ⟨(c10_zero_time_bound.1 ⟨[], zeroTime, ⟨2023, 1, 1, 0, 0, 0, 0, 0⟩⟩ rfl).1,
   (c10_zero_time_bound.2 ⟨[], ⟨2023, 1, 1, 0, 0, 0, 0, 0⟩, zeroTime⟩ rfl).1⟩

end EventLog
